import Mathlib

/-!
# Verification of the weshnet group-metadata index (`store_metadata_index.go`)

This file is a shallow embedding of the metadata-store index of the weshnet
repository: the deterministic replay engine that folds an append-only event
log into the in-memory state of a group (members, devices, admins, contacts,
groups roster, service tokens, credentials, contact-request knobs, alias
keys), together with its query surface.

Modelling conventions:
* Go byte strings (public keys, seeds, hashes as strings) become `List Nat`.
* Go maps become association lists with first-match lookup and
  replace-or-append insertion (`mapLookup` / `mapInsert`); Go map iteration
  order is modelled as insertion order.
* Go `[]byte` fields whose nil-ness is significant become `Option Bytes`.
* `crypto.UnmarshalEd25519PublicKey` of go-libp2p only checks that the input
  has exactly 32 bytes and then allocates a fresh `*Ed25519PublicKey`;
  validity of a key is therefore `length = 32`, and the *pointer* returned by
  a successful unmarshal is modelled, where the pointer identity matters
  (the `admins` map is keyed by `crypto.PubKey`, an interface holding that
  pointer), as a fresh natural number drawn from a counter.
* Fallible Go functions return their partially-mutated state together with an
  `Option Err` (handlers mutate in place before they can fail, and
  `UpdateIndex` swallows handler errors, so the mutated state must survive).
-/

namespace Weshnet

/-- Raw byte strings: public keys, seeds, metadata. -/
abbrev Bytes := List Nat

/-- `cryptoutil.KeySize`: Ed25519 public keys are 32 bytes. -/
def keySize : Nat := 32

/-- Go map read: first matching key wins (keys are unique in a real map). -/
def mapLookup {K V : Type} [DecidableEq K] : List (K × V) → K → Option V
  | [], _ => none
  | (k', v) :: rest, k => if k' = k then some v else mapLookup rest k

/-- Go map write: replace the value under an existing key, else append. -/
def mapInsert {K V : Type} [DecidableEq K] : List (K × V) → K → V → List (K × V)
  | [], k, v => [(k, v)]
  | (k', v') :: rest, k, v =>
    if k' = k then (k', v) :: rest else (k', v') :: mapInsert rest k v

/-- Go set insert (`m[k] = struct{}{}`): append the element when absent. -/
def setInsert {α : Type} [DecidableEq α] (l : List α) (a : α) : List α :=
  if a ∈ l then l else l ++ [a]

/-- An association list has pairwise distinct keys (true of every Go map). -/
def NodupKeys {K V : Type} (l : List (K × V)) : Prop := (l.map Prod.fst).Nodup

@[simp] theorem mapLookup_nil {K V : Type} [DecidableEq K] (k : K) :
    mapLookup ([] : List (K × V)) k = none := rfl

@[simp] theorem mapLookup_insert_self {K V : Type} [DecidableEq K]
    (l : List (K × V)) (k : K) (v : V) : mapLookup (mapInsert l k v) k = some v := by
  induction l with
  | nil => simp [mapInsert, mapLookup]
  | cons p rest ih =>
    by_cases h : p.1 = k
    · simp [mapInsert, h, mapLookup]
    · simp [mapInsert, h, mapLookup, ih]

theorem mapLookup_insert_ne {K V : Type} [DecidableEq K]
    (l : List (K × V)) (k' k : K) (v : V) (h : k' ≠ k) :
    mapLookup (mapInsert l k' v) k = mapLookup l k := by
  induction l with
  | nil => simp [mapInsert, mapLookup, h]
  | cons p rest ih =>
    rcases p with ⟨pk, pv⟩
    by_cases hp : pk = k'
    · subst hp
      simp [mapInsert, mapLookup, h]
    · by_cases hk : pk = k
      · simp [mapInsert, hp, mapLookup, hk, Ne.symm h]
      · simp [mapInsert, hp, mapLookup, hk, ih]

theorem mapLookup_some_mem {K V : Type} [DecidableEq K]
    {l : List (K × V)} {k : K} {v : V} (h : mapLookup l k = some v) : (k, v) ∈ l := by
  induction l with
  | nil => simp [mapLookup] at h
  | cons p rest ih =>
    rcases p with ⟨pk, pv⟩
    by_cases hp : pk = k
    · subst hp
      simp [mapLookup] at h
      subst h
      exact List.mem_cons_self _ _
    · simp [mapLookup, hp] at h
      exact List.mem_cons_of_mem _ (ih h)

theorem mem_mapInsert {K V : Type} [DecidableEq K]
    {l : List (K × V)} {k : K} {v : V} {p : K × V} (h : p ∈ mapInsert l k v) :
    p ∈ l ∨ p = (k, v) := by
  induction l with
  | nil =>
    simp [mapInsert] at h
    right; exact h
  | cons q rest ih =>
    rcases q with ⟨qk, qv⟩
    by_cases hq : qk = k
    · subst hq
      simp [mapInsert] at h
      rcases h with h | h
      · right; simp [h]
      · left; exact List.mem_cons_of_mem _ h
    · simp [mapInsert, hq] at h
      rcases h with h | h
      · left; simp [h]
      · rcases ih h with h' | h'
        · left; exact List.mem_cons_of_mem _ h'
        · right; exact h'

theorem keys_mapInsert {K V : Type} [DecidableEq K] (l : List (K × V)) (k : K) (v : V) :
    (mapInsert l k v).map Prod.fst =
      if k ∈ l.map Prod.fst then l.map Prod.fst else l.map Prod.fst ++ [k] := by
  induction l with
  | nil => simp [mapInsert]
  | cons p rest ih =>
    rcases p with ⟨pk, pv⟩
    by_cases hq : pk = k
    · subst hq
      simp [mapInsert]
    · by_cases hk : k ∈ rest.map Prod.fst
      · simp [mapInsert, hq, ih, hk, Ne.symm hq]
      · simp [mapInsert, hq, ih, hk, Ne.symm hq]

theorem nodupKeys_mapInsert {K V : Type} [DecidableEq K]
    {l : List (K × V)} (k : K) (v : V) (h : NodupKeys l) :
    NodupKeys (mapInsert l k v) := by
  unfold NodupKeys at h ⊢
  rw [keys_mapInsert]
  by_cases hk : k ∈ l.map Prod.fst
  · simpa [hk] using h
  · simp only [hk, if_false]
    rw [List.nodup_append]
    exact ⟨h, List.nodup_singleton k, by
      intro a ha hb
      simp at hb
      subst hb
      exact hk ha⟩

theorem mapLookup_of_mem_nodup {K V : Type} [DecidableEq K]
    {l : List (K × V)} {k : K} {v : V} (hn : NodupKeys l) (h : (k, v) ∈ l) :
    mapLookup l k = some v := by
  induction l with
  | nil => simp at h
  | cons q rest ih =>
    rcases q with ⟨qk, qv⟩
    unfold NodupKeys at hn
    simp only [List.map_cons, List.nodup_cons] at hn
    rcases List.mem_cons.mp h with h | h
    · rw [Prod.mk.injEq] at h
      simp [mapLookup, h.1.symm, h.2.symm]
    · by_cases hq : qk = k
      · subst hq
        exact absurd (List.mem_map_of_mem Prod.fst h) hn.1
      · simpa [mapLookup, hq] using ih hn.2 h

theorem mapLookup_insert_preserve {K V : Type} [DecidableEq K]
    {l : List (K × V)} {k k0 : K} {v : V} (v0 : V)
    (h : mapLookup l k = some v) (h0 : mapLookup l k0 = none) :
    mapLookup (mapInsert l k0 v0) k = some v := by
  have hne : k0 ≠ k := by
    intro he
    rw [he] at h0
    rw [h0] at h
    exact Option.noConfusion h
  rw [mapLookup_insert_ne _ _ _ _ hne]
  exact h

/-! ## Protocol data types (`pkg/protocoltypes`, pared down to what the index reads) -/

/-- `protocoltypes.GroupType`. -/
inductive GroupType
  | account
  | contact
  | multiMember
deriving DecidableEq

/-- `protocoltypes.Group`: the descriptor the index is bound to. -/
structure GroupDesc where
  publicKey : Bytes
  groupType : GroupType
deriving DecidableEq

/-- `secretstore.MemberDevice`: a (memberPK, devicePK) binding. -/
structure MemberDevice where
  member : Bytes
  device : Bytes
deriving DecidableEq

/-- `protocoltypes.ContactState`. -/
inductive ContactState
  | toRequest
  | added
  | received
  | discarded
  | blocked
  | removed
deriving DecidableEq

/-- `protocoltypes.ShareableContact` (PK, rendezvous seed, opaque metadata).
`Option` models nil-ness of the Go byte slices, which the fill-in rules test. -/
structure ShareableContact where
  pk : Bytes
  publicRendezvousSeed : Option Bytes
  metadata : Option Bytes
deriving DecidableEq

/-- `AccountContact`: per-contact record of the index. -/
structure AccountContact where
  state : ContactState
  contact : ShareableContact
deriving DecidableEq

/-- `accountGroupJoinedState`. -/
inductive AccountGroupJoinedState
  | joined
  | left
deriving DecidableEq

/-- `accountGroup`: roster entry (the Left record stores no descriptor). -/
structure AccountGroup where
  state : AccountGroupJoinedState
  group : Option GroupDesc
deriving DecidableEq

/-- `protocoltypes.ServiceToken`; `tokenID` stands for the `TokenID()` digest,
`token` for the rest of the payload. -/
structure ServiceToken where
  tokenID : Nat
  token : Nat
deriving DecidableEq

/-- The error kinds of `pkg/errcode` the index produces (plus `plainError`
for the bare `fmt.Errorf` of `postHandlerSentAliases`). -/
inductive Err
  | invalidInput
  | deserialization
  | missingInput
  | missingMapKey
  | groupInvalidType
  | internal
  | orbitDBOpen
  | serialization
  | plainError
deriving DecidableEq

/-- The decoded metadata events dispatched by the index, one constructor per
registered `EventType`; `otherEvent` stands for any tag with no registered
handler. -/
inductive Event
  | groupMemberDeviceAdded (memberPK devicePK : Bytes)
  | groupDeviceChainKeyAdded (devicePK destMemberPK : Bytes)
  | accountGroupJoined (group : GroupDesc)
  | accountGroupLeft (groupPK : Bytes)
  | accountContactRequestDisabled
  | accountContactRequestEnabled
  | accountContactRequestReferenceReset (publicRendezvousSeed : Option Bytes)
  | accountContactRequestOutgoingEnqueued (contact : Option ShareableContact) (ownMetadata : Bytes)
  | accountContactRequestOutgoingSent (contactPK : Bytes)
  | accountContactRequestIncomingReceived (contactPK : Bytes)
      (contactMetadata : Option Bytes) (contactRendezvousSeed : Option Bytes)
  | accountContactRequestIncomingDiscarded (contactPK : Bytes)
  | accountContactRequestIncomingAccepted (contactPK : Bytes)
  | accountContactBlocked (contactPK : Bytes)
  | accountContactUnblocked (contactPK : Bytes)
  | contactAliasKeyAdded (devicePK aliasPK : Bytes)
  | accountServiceTokenAdded (serviceToken : ServiceToken)
  | accountServiceTokenRemoved (tokenID : Nat)
  | multiMemberGroupInitialMemberAnnounced (memberPK : Bytes)
  | multiMemberGroupAdminRoleGranted
  | groupMetadataPayloadSent
  | accountVerifiedCredentialRegistered (credential : Nat)
  | otherEvent (tag : Nat)
deriving DecidableEq

/-- One log entry as `UpdateIndex` sees it: its content hash and the result of
`openMetadataEntry` (`none` models a decoding failure). `openMetadataEntry`
always unmarshals the concrete message matching the envelope's event type, so
the tag is recovered from the event itself. -/
structure Entry where
  hash : Nat
  decoded : Option Event
deriving DecidableEq

/-! ## The index state (`metadataStoreIndex`)

Fields follow the Go struct. `admins` is a Go `map[crypto.PubKey]struct{}`:
its keys are the interface values returned by `UnmarshalEd25519PublicKey`,
i.e. fresh pointers, compared by identity; an entry is therefore a pair of a
pointer (a `Nat` drawn from `adminPtrCtr`, which models the allocator) and
the member key bytes the pointer refers to. `secretStore` models
`SecretStore.GetGroupForContact` (`none` = lookup error). -/
structure MetadataStoreIndex where
  members : List (Bytes × List MemberDevice)
  devices : List (Bytes × MemberDevice)
  handledEvents : List Nat
  sentSecrets : List Bytes
  admins : List (Nat × Bytes)
  adminPtrCtr : Nat
  contacts : List (Bytes × AccountContact)
  contactsFromGroupPK : List (Bytes × AccountContact)
  groups : List (Bytes × AccountGroup)
  serviceTokens : List (Nat × Option ServiceToken)
  contactRequestMetadata : List (Bytes × Bytes)
  verifiedCredentials : List Nat
  contactRequestSeed : Option Bytes
  contactRequestEnabled : Option Bool
  eventsContactAddAliasKey : List (Bytes × Bytes)
  ownAliasKeySent : Bool
  otherAliasKey : Option Bytes
  group : GroupDesc
  ownMemberDevice : MemberDevice
  secretStore : Bytes → Option GroupDesc

namespace MetadataStoreIndex

/-- `handleGroupMemberDeviceAdded`: unmarshal both keys (32-byte check), no-op
if the device is already registered, else record the binding in `devices` and
append it to the member's list. -/
def handleGroupMemberDeviceAdded (m : MetadataStoreIndex) :
    Event → MetadataStoreIndex × Option Err
  | .groupMemberDeviceAdded memberPK devicePK =>
    if memberPK.length ≠ keySize then (m, some .deserialization)
    else if devicePK.length ≠ keySize then (m, some .deserialization)
    else if (mapLookup m.devices devicePK).isSome then (m, none)
    else
      let memberDevice : MemberDevice := ⟨memberPK, devicePK⟩
      ({ m with
          devices := mapInsert m.devices devicePK memberDevice,
          members := mapInsert m.members memberPK
            ((mapLookup m.members memberPK).getD [] ++ [memberDevice]) }, none)
  | _ => (m, some .invalidInput)

/-- `handleGroupDeviceChainKeyAdded`: validate both keys; when the sender is
the own device, record the destination member in `sentSecrets`. -/
def handleGroupDeviceChainKeyAdded (m : MetadataStoreIndex) :
    Event → MetadataStoreIndex × Option Err
  | .groupDeviceChainKeyAdded devicePK destMemberPK =>
    if destMemberPK.length ≠ keySize then (m, some .deserialization)
    else if devicePK.length ≠ keySize then (m, some .deserialization)
    else if devicePK = m.ownMemberDevice.device then
      ({ m with sentSecrets := setInsert m.sentSecrets destMemberPK }, none)
    else (m, none)
  | _ => (m, some .invalidInput)

/-- `handleGroupJoined`: first-write-wins on the group key; record Joined with
the descriptor. -/
def handleGroupJoined (m : MetadataStoreIndex) :
    Event → MetadataStoreIndex × Option Err
  | .accountGroupJoined g =>
    if (mapLookup m.groups g.publicKey).isSome then (m, none)
    else ({ m with groups := mapInsert m.groups g.publicKey ⟨.joined, some g⟩ }, none)
  | _ => (m, some .invalidInput)

/-- `handleGroupLeft`: first-write-wins on the group key; record Left with no
descriptor. -/
def handleGroupLeft (m : MetadataStoreIndex) :
    Event → MetadataStoreIndex × Option Err
  | .accountGroupLeft groupPK =>
    if (mapLookup m.groups groupPK).isSome then (m, none)
    else ({ m with groups := mapInsert m.groups groupPK ⟨.left, none⟩ }, none)
  | _ => (m, some .invalidInput)

/-- `handleContactRequestDisabled`: the knob check precedes the type
assertion in the source. -/
def handleContactRequestDisabled (m : MetadataStoreIndex) (ev : Event) :
    MetadataStoreIndex × Option Err :=
  if m.contactRequestEnabled.isSome then (m, none)
  else match ev with
    | .accountContactRequestDisabled => ({ m with contactRequestEnabled := some false }, none)
    | _ => (m, some .invalidInput)

/-- `handleContactRequestEnabled`: the knob check precedes the type
assertion in the source. -/
def handleContactRequestEnabled (m : MetadataStoreIndex) (ev : Event) :
    MetadataStoreIndex × Option Err :=
  if m.contactRequestEnabled.isSome then (m, none)
  else match ev with
    | .accountContactRequestEnabled => ({ m with contactRequestEnabled := some true }, none)
    | _ => (m, some .invalidInput)

/-- `handleContactRequestReferenceReset`: first non-nil write wins on the
rendezvous seed (a nil seed in the event leaves the knob unset). -/
def handleContactRequestReferenceReset (m : MetadataStoreIndex) :
    Event → MetadataStoreIndex × Option Err
  | .accountContactRequestReferenceReset seed =>
    if m.contactRequestSeed.isSome then (m, none)
    else ({ m with contactRequestSeed := seed }, none)
  | _ => (m, some .invalidInput)

/-- `registerContactFromGroupPK`: only legal in an Account group; derive the
contact's group via the secret store and fill the reverse index. -/
def registerContactFromGroupPK (m : MetadataStoreIndex) (ac : AccountContact) :
    MetadataStoreIndex × Option Err :=
  if m.group.groupType ≠ .account then (m, some .groupInvalidType)
  else if ac.contact.pk.length ≠ keySize then (m, some .deserialization)
  else match m.secretStore ac.contact.pk with
    | none => (m, some .orbitDBOpen)
    | some g => ({ m with contactsFromGroupPK := mapInsert m.contactsFromGroupPK g.publicKey ac }, none)

/-- `handleContactRequestOutgoingEnqueued`: on an existing record fill the
absent optional fields; otherwise record own metadata (when absent or empty),
create the record in `ToRequest` and register it in the reverse index. -/
def handleContactRequestOutgoingEnqueued (m : MetadataStoreIndex) :
    Event → MetadataStoreIndex × Option Err
  | .accountContactRequestOutgoingEnqueued contact ownMetadata =>
    match contact with
    | none => (m, some .invalidInput)
    | some c =>
      match mapLookup m.contacts c.pk with
      | some existing =>
        let e1 := if existing.contact.metadata = none then
            { existing with contact := { existing.contact with metadata := c.metadata } }
          else existing
        let e2 := if e1.contact.publicRendezvousSeed = none then
            { e1 with contact := { e1.contact with publicRendezvousSeed := c.publicRendezvousSeed } }
          else e1
        ({ m with contacts := mapInsert m.contacts c.pk e2 }, none)
      | none =>
        let crm := match mapLookup m.contactRequestMetadata c.pk with
          | none => mapInsert m.contactRequestMetadata c.pk ownMetadata
          | some data =>
            if data.length = 0 then mapInsert m.contactRequestMetadata c.pk ownMetadata
            else m.contactRequestMetadata
        let ac : AccountContact := ⟨.toRequest, ⟨c.pk, c.publicRendezvousSeed, c.metadata⟩⟩
        let m' := { m with contactRequestMetadata := crm,
                           contacts := mapInsert m.contacts c.pk ac }
        m'.registerContactFromGroupPK ac
  | _ => (m, some .invalidInput)

/-- `handleContactRequestOutgoingSent`: if absent, create the record in
`Added` (PK only) and register it. -/
def handleContactRequestOutgoingSent (m : MetadataStoreIndex) :
    Event → MetadataStoreIndex × Option Err
  | .accountContactRequestOutgoingSent contactPK =>
    match mapLookup m.contacts contactPK with
    | some _ => (m, none)
    | none =>
      let ac : AccountContact := ⟨.added, ⟨contactPK, none, none⟩⟩
      let m' := { m with contacts := mapInsert m.contacts contactPK ac }
      m'.registerContactFromGroupPK ac
  | _ => (m, some .invalidInput)

/-- `handleContactRequestIncomingReceived`: on an existing record fill the
absent optional fields; otherwise create in `Received` and register. -/
def handleContactRequestIncomingReceived (m : MetadataStoreIndex) :
    Event → MetadataStoreIndex × Option Err
  | .accountContactRequestIncomingReceived contactPK contactMetadata contactRendezvousSeed =>
    match mapLookup m.contacts contactPK with
    | some existing =>
      let e1 := if existing.contact.metadata = none then
          { existing with contact := { existing.contact with metadata := contactMetadata } }
        else existing
      let e2 := if e1.contact.publicRendezvousSeed = none then
          { e1 with contact := { e1.contact with publicRendezvousSeed := contactRendezvousSeed } }
        else e1
      ({ m with contacts := mapInsert m.contacts contactPK e2 }, none)
    | none =>
      let ac : AccountContact := ⟨.received, ⟨contactPK, contactRendezvousSeed, contactMetadata⟩⟩
      let m' := { m with contacts := mapInsert m.contacts contactPK ac }
      m'.registerContactFromGroupPK ac
  | _ => (m, some .invalidInput)

/-- `handleContactRequestIncomingDiscarded`: if absent, create in `Discarded`
and register. -/
def handleContactRequestIncomingDiscarded (m : MetadataStoreIndex) :
    Event → MetadataStoreIndex × Option Err
  | .accountContactRequestIncomingDiscarded contactPK =>
    match mapLookup m.contacts contactPK with
    | some _ => (m, none)
    | none =>
      let ac : AccountContact := ⟨.discarded, ⟨contactPK, none, none⟩⟩
      let m' := { m with contacts := mapInsert m.contacts contactPK ac }
      m'.registerContactFromGroupPK ac
  | _ => (m, some .invalidInput)

/-- `handleContactRequestIncomingAccepted`: if absent, create in `Added` and
register. -/
def handleContactRequestIncomingAccepted (m : MetadataStoreIndex) :
    Event → MetadataStoreIndex × Option Err
  | .accountContactRequestIncomingAccepted contactPK =>
    match mapLookup m.contacts contactPK with
    | some _ => (m, none)
    | none =>
      let ac : AccountContact := ⟨.added, ⟨contactPK, none, none⟩⟩
      let m' := { m with contacts := mapInsert m.contacts contactPK ac }
      m'.registerContactFromGroupPK ac
  | _ => (m, some .invalidInput)

/-- `handleContactBlocked`: if absent, create in `Blocked` and register. -/
def handleContactBlocked (m : MetadataStoreIndex) :
    Event → MetadataStoreIndex × Option Err
  | .accountContactBlocked contactPK =>
    match mapLookup m.contacts contactPK with
    | some _ => (m, none)
    | none =>
      let ac : AccountContact := ⟨.blocked, ⟨contactPK, none, none⟩⟩
      let m' := { m with contacts := mapInsert m.contacts contactPK ac }
      m'.registerContactFromGroupPK ac
  | _ => (m, some .invalidInput)

/-- `handleContactUnblocked`: if absent, create in `Removed` and register. -/
def handleContactUnblocked (m : MetadataStoreIndex) :
    Event → MetadataStoreIndex × Option Err
  | .accountContactUnblocked contactPK =>
    match mapLookup m.contacts contactPK with
    | some _ => (m, none)
    | none =>
      let ac : AccountContact := ⟨.removed, ⟨contactPK, none, none⟩⟩
      let m' := { m with contacts := mapInsert m.contacts contactPK ac }
      m'.registerContactFromGroupPK ac
  | _ => (m, some .invalidInput)

/-- `handleContactAliasKeyAdded`: enqueue the event for the post-action. -/
def handleContactAliasKeyAdded (m : MetadataStoreIndex) :
    Event → MetadataStoreIndex × Option Err
  | .contactAliasKeyAdded devicePK aliasPK =>
    ({ m with eventsContactAddAliasKey := m.eventsContactAddAliasKey ++ [(devicePK, aliasPK)] }, none)
  | _ => (m, some .invalidInput)

/-- `handleAccountServiceTokenAdded`: ignore when the token id is already
present (including as a tombstone); else store the token. -/
def handleAccountServiceTokenAdded (m : MetadataStoreIndex) :
    Event → MetadataStoreIndex × Option Err
  | .accountServiceTokenAdded tok =>
    if (mapLookup m.serviceTokens tok.tokenID).isSome then (m, none)
    else ({ m with serviceTokens := mapInsert m.serviceTokens tok.tokenID (some tok) }, none)
  | _ => (m, some .invalidInput)

/-- `handleAccountServiceTokenRemoved`: unconditionally write a tombstone. -/
def handleAccountServiceTokenRemoved (m : MetadataStoreIndex) :
    Event → MetadataStoreIndex × Option Err
  | .accountServiceTokenRemoved tokenID =>
    ({ m with serviceTokens := mapInsert m.serviceTokens tokenID none }, none)
  | _ => (m, some .invalidInput)

/-- `handleMultiMemberInitialMember`: unmarshal the member key — a fresh
pointer — and insert it into the pointer-keyed `admins` map; the duplicate
check compares pointers, so it can only see the freshly allocated one. -/
def handleMultiMemberInitialMember (m : MetadataStoreIndex) :
    Event → MetadataStoreIndex × Option Err
  | .multiMemberGroupInitialMemberAnnounced memberPK =>
    if memberPK.length ≠ keySize then (m, some .deserialization)
    else
      let pk := m.adminPtrCtr
      let m1 := { m with adminPtrCtr := m.adminPtrCtr + 1 }
      if m1.admins.any (fun p => p.1 = pk) then (m1, some .internal)
      else ({ m1 with admins := m1.admins ++ [(pk, memberPK)] }, none)
  | _ => (m, some .invalidInput)

/-- `handleMultiMemberGrantAdminRole`: declared but empty (TODO in source). -/
def handleMultiMemberGrantAdminRole (m : MetadataStoreIndex) (_ : Event) :
    MetadataStoreIndex × Option Err := (m, none)

/-- `handleGroupMetadataPayloadSent`: no-op. -/
def handleGroupMetadataPayloadSent (m : MetadataStoreIndex) (_ : Event) :
    MetadataStoreIndex × Option Err := (m, none)

/-- `handleAccountVerifiedCredentialRegistered`: append to the credential
log. -/
def handleAccountVerifiedCredentialRegistered (m : MetadataStoreIndex) :
    Event → MetadataStoreIndex × Option Err
  | .accountVerifiedCredentialRegistered c =>
    ({ m with verifiedCredentials := m.verifiedCredentials ++ [c] }, none)
  | _ => (m, some .invalidInput)

/-- The handler table of `newMetadataIndex`, collapsed into a dispatcher
(each registered event type has exactly one handler); `otherEvent` has no
registered handler and leaves the state unchanged. -/
def handleEvent (m : MetadataStoreIndex) (ev : Event) : MetadataStoreIndex × Option Err :=
  match ev with
  | .groupMemberDeviceAdded .. => m.handleGroupMemberDeviceAdded ev
  | .groupDeviceChainKeyAdded .. => m.handleGroupDeviceChainKeyAdded ev
  | .accountGroupJoined .. => m.handleGroupJoined ev
  | .accountGroupLeft .. => m.handleGroupLeft ev
  | .accountContactRequestDisabled => m.handleContactRequestDisabled ev
  | .accountContactRequestEnabled => m.handleContactRequestEnabled ev
  | .accountContactRequestReferenceReset .. => m.handleContactRequestReferenceReset ev
  | .accountContactRequestOutgoingEnqueued .. => m.handleContactRequestOutgoingEnqueued ev
  | .accountContactRequestOutgoingSent .. => m.handleContactRequestOutgoingSent ev
  | .accountContactRequestIncomingReceived .. => m.handleContactRequestIncomingReceived ev
  | .accountContactRequestIncomingDiscarded .. => m.handleContactRequestIncomingDiscarded ev
  | .accountContactRequestIncomingAccepted .. => m.handleContactRequestIncomingAccepted ev
  | .accountContactBlocked .. => m.handleContactBlocked ev
  | .accountContactUnblocked .. => m.handleContactUnblocked ev
  | .contactAliasKeyAdded .. => m.handleContactAliasKeyAdded ev
  | .accountServiceTokenAdded .. => m.handleAccountServiceTokenAdded ev
  | .accountServiceTokenRemoved .. => m.handleAccountServiceTokenRemoved ev
  | .multiMemberGroupInitialMemberAnnounced .. => m.handleMultiMemberInitialMember ev
  | .multiMemberGroupAdminRoleGranted => m.handleMultiMemberGrantAdminRole ev
  | .groupMetadataPayloadSent => m.handleGroupMetadataPayloadSent ev
  | .accountVerifiedCredentialRegistered .. => m.handleAccountVerifiedCredentialRegistered ev
  | .otherEvent _ => (m, none)

/-- Record an entry hash in the handled-events set. -/
def markHandled (m : MetadataStoreIndex) (h : Nat) : MetadataStoreIndex :=
  { m with handledEvents := setInsert m.handledEvents h }

/-- One iteration of the `UpdateIndex` loop over one entry: skip entries
already handled in a non-Account group; skip (without marking) entries whose
decoding fails; otherwise dispatch (handler errors are logged and swallowed)
and mark the entry handled. -/
def stepIdx (m : MetadataStoreIndex) (e : Entry) : MetadataStoreIndex :=
  if m.group.groupType ≠ .account ∧ e.hash ∈ m.handledEvents then m
  else
    match e.decoded with
    | none => m
    | some ev => markHandled (handleEvent m ev).1 e.hash

/-- The state reset at the top of `UpdateIndex`. -/
def resetState (m : MetadataStoreIndex) : MetadataStoreIndex :=
  { m with
      contacts := [],
      contactsFromGroupPK := [],
      groups := [],
      serviceTokens := [],
      contactRequestMetadata := [],
      contactRequestEnabled := none,
      contactRequestSeed := none,
      verifiedCredentials := [],
      handledEvents := [] }

/-- `unsafeGetMemberByDevice`: size check, then the device registry. -/
def unsafeGetMemberByDevice (m : MetadataStoreIndex) (publicKeyBytes : Bytes) :
    Except Err Bytes :=
  if publicKeyBytes.length ≠ keySize then .error .invalidInput
  else match mapLookup m.devices publicKeyBytes with
    | none => .error .missingInput
    | some memberDevice => .ok memberDevice.member

/-- The loop body of `postHandlerSentAliases` over the staged alias events:
resolve the sender; own member sets the flag; a foreign sender's alias key is
size-checked and adopted; the queue is cleared only after a full drain. -/
def aliasLoop (m : MetadataStoreIndex) : List (Bytes × Bytes) → MetadataStoreIndex × Option Err
  | [] => ({ m with eventsContactAddAliasKey := [] }, none)
  | evt :: rest =>
    match unsafeGetMemberByDevice m evt.1 with
    | .error _ => (m, some .plainError)
    | .ok memberPublicKey =>
      if memberPublicKey = m.ownMemberDevice.member then
        aliasLoop { m with ownAliasKeySent := true } rest
      else if evt.2.length ≠ keySize then (m, some .invalidInput)
      else aliasLoop { m with otherAliasKey := some evt.2 } rest

/-- `postHandlerSentAliases`, the only registered post-index action. -/
def postHandlerSentAliases (m : MetadataStoreIndex) : MetadataStoreIndex × Option Err :=
  aliasLoop m m.eventsContactAddAliasKey

/-- `UpdateIndex`: reset the per-replay structures, fold the log snapshot
newest-first, then run the post-action; a post-action failure surfaces as an
internal error (wrapping), with the state retained as mutated so far. -/
def updateIndex (m : MetadataStoreIndex) (entries : List Entry) :
    MetadataStoreIndex × Option Err :=
  let m1 := entries.reverse.foldl stepIdx (resetState m)
  match postHandlerSentAliases m1 with
  | (m2, none) => (m2, none)
  | (m2, some _) => (m2, some .internal)

/-! ## Query surface -/

/-- `listContacts`: a fresh map of freshly built records (deep copy). -/
def listContacts (m : MetadataStoreIndex) : List (Bytes × AccountContact) :=
  m.contacts.map fun p =>
    (p.1, ⟨p.2.state, ⟨p.2.contact.pk, p.2.contact.publicRendezvousSeed, p.2.contact.metadata⟩⟩)

/-- `listVerifiedCredentials`: returns the internal slice as is. -/
def listVerifiedCredentials (m : MetadataStoreIndex) : List Nat :=
  m.verifiedCredentials

/-- `listMembers`: one member key per member entry (first binding). -/
def listMembers (m : MetadataStoreIndex) : List Bytes :=
  m.members.filterMap fun p => p.2.head?.map (·.member)

/-- `listDevices`: every registered device key. -/
def listDevices (m : MetadataStoreIndex) : List Bytes :=
  m.devices.map fun p => p.2.device

/-- `listAdmins`: the member keys held in the admin set (in Go, the stored
`crypto.PubKey` interface values; here the bytes the pointers refer to). -/
def listAdmins (m : MetadataStoreIndex) : List Bytes :=
  m.admins.map Prod.snd

/-- `listServiceTokens`: all non-tombstone values. -/
def listServiceTokens (m : MetadataStoreIndex) : List ServiceToken :=
  m.serviceTokens.filterMap Prod.snd

/-- `MemberCount`. -/
def memberCount (m : MetadataStoreIndex) : Nat := m.members.length

/-- `DeviceCount`. -/
def deviceCount (m : MetadataStoreIndex) : Nat := m.devices.length

/-- `areSecretsAlreadySent`. -/
def areSecretsAlreadySent (m : MetadataStoreIndex) (pk : Bytes) : Bool :=
  pk ∈ m.sentSecrets

/-- `getMemberByDevice` (the lock aside, the unsafe helper). -/
def getMemberByDevice (m : MetadataStoreIndex) (pk : Bytes) : Except Err Bytes :=
  m.unsafeGetMemberByDevice pk

/-- `getDevicesForMember`. -/
def getDevicesForMember (m : MetadataStoreIndex) (pk : Bytes) : Except Err (List Bytes) :=
  match mapLookup m.members pk with
  | none => .error .invalidInput
  | some mds => .ok (mds.map (·.device))

/-- `listOtherMembersDevices`: all devices of members other than the own
member. -/
def listOtherMembersDevices (m : MetadataStoreIndex) : List Bytes :=
  (m.members.filter fun p => p.1 ≠ m.ownMemberDevice.member).flatMap
    fun p => p.2.map (·.device)

/-- `contactRequestsEnabled`. -/
def contactRequestsEnabled (m : MetadataStoreIndex) : Bool :=
  m.contactRequestEnabled.getD false

/-- `contactRequestsSeed`. -/
def contactRequestsSeed (m : MetadataStoreIndex) : Option Bytes :=
  m.contactRequestSeed

/-- `getContact`: look up the record (the Go method returns the internal
pointer; the sharing itself is studied in the heap model below). -/
def getContact (m : MetadataStoreIndex) (pk : Bytes) : Except Err AccountContact :=
  match mapLookup m.contacts pk with
  | none => .error .missingMapKey
  | some contact => .ok contact

end MetadataStoreIndex

/-! ## Generic first-write-wins replay lemmas

Replay dispatches newest-first and every structure rebuilt per replay obeys
"the first write a key receives is retained", so the final view of a key is
the first hit of a per-entry function over the processing order. -/

/-- Keep the first defined value. -/
def ofirst {α : Type} : Option α → Option α → Option α
  | some x, _ => some x
  | none, b => b

@[simp] theorem ofirst_none_left {α : Type} (b : Option α) : ofirst none b = b := rfl

@[simp] theorem ofirst_some_left {α : Type} (x : α) (b : Option α) :
    ofirst (some x) b = some x := rfl

@[simp] theorem ofirst_none_right {α : Type} (a : Option α) : ofirst a none = a := by
  cases a <;> rfl

theorem ofirst_assoc {α : Type} (a b c : Option α) :
    ofirst (ofirst a b) c = ofirst a (ofirst b c) := by
  cases a <;> rfl

/-- First defined value of `f` along a list of entries, in list order. -/
def firstHit {α : Type} (f : Entry → Option α) (L : List Entry) : Option α :=
  L.foldl (fun acc e => ofirst acc (f e)) none

theorem foldl_ofirst_acc {α : Type} (f : Entry → Option α) (L : List Entry) (a : Option α) :
    L.foldl (fun acc e => ofirst acc (f e)) a = ofirst a (firstHit f L) := by
  induction L generalizing a with
  | nil => simp [firstHit]
  | cons e L ih =>
    have h1 : firstHit f (e :: L) = ofirst (f e) (firstHit f L) := by
      show L.foldl _ (ofirst none (f e)) = _
      rw [ofirst_none_left, ih]
    rw [List.foldl_cons, ih, ofirst_assoc, h1]

theorem firstHit_cons {α : Type} (f : Entry → Option α) (e : Entry) (L : List Entry) :
    firstHit f (e :: L) = ofirst (f e) (firstHit f L) := by
  show L.foldl _ (ofirst none (f e)) = _
  rw [ofirst_none_left, foldl_ofirst_acc]

theorem firstHit_append {α : Type} (f : Entry → Option α) (L1 L2 : List Entry) :
    firstHit f (L1 ++ L2) = ofirst (firstHit f L1) (firstHit f L2) := by
  unfold firstHit
  rw [List.foldl_append, foldl_ofirst_acc]
  rfl

namespace MetadataStoreIndex

/-- The dispatcher never touches the handled-events set (only `stepIdx`
does). -/
theorem handleEvent_handledEvents (m : MetadataStoreIndex) (ev : Event) :
    (handleEvent m ev).1.handledEvents = m.handledEvents := by
  cases ev <;>
    simp only [handleEvent, handleGroupMemberDeviceAdded, handleGroupDeviceChainKeyAdded,
      handleGroupJoined, handleGroupLeft, handleContactRequestDisabled,
      handleContactRequestEnabled, handleContactRequestReferenceReset,
      handleContactRequestOutgoingEnqueued, handleContactRequestOutgoingSent,
      handleContactRequestIncomingReceived, handleContactRequestIncomingDiscarded,
      handleContactRequestIncomingAccepted, handleContactBlocked, handleContactUnblocked,
      handleContactAliasKeyAdded, handleAccountServiceTokenAdded,
      handleAccountServiceTokenRemoved, handleMultiMemberInitialMember,
      handleMultiMemberGrantAdminRole, handleGroupMetadataPayloadSent,
      handleAccountVerifiedCredentialRegistered, registerContactFromGroupPK] <;>
    (repeat' split) <;> rfl

/-- Hashes recorded by one step: the entry's own hash at most. -/
theorem handled_stepIdx_sub (s : MetadataStoreIndex) (e : Entry) :
    ∀ x ∈ (stepIdx s e).handledEvents, x = e.hash ∨ x ∈ s.handledEvents := by
  intro x hx
  unfold stepIdx at hx
  split at hx
  · exact Or.inr hx
  · split at hx
    · exact Or.inr hx
    · unfold markHandled setInsert at hx
      rw [handleEvent_handledEvents] at hx
      split at hx
      · exact Or.inr hx
      · simp at hx
        rcases hx with hx | hx
        · exact Or.inr hx
        · exact Or.inl hx

/-- Hashes recorded by a fold: hashes of the folded entries at most. -/
theorem handled_foldl_sub (L : List Entry) (s : MetadataStoreIndex) :
    ∀ x ∈ (L.foldl stepIdx s).handledEvents,
      x ∈ s.handledEvents ∨ x ∈ L.map Entry.hash := by
  induction L generalizing s with
  | nil => intro x hx; exact Or.inl hx
  | cons e L ih =>
    intro x hx
    rw [List.foldl_cons] at hx
    rcases ih (stepIdx s e) x hx with h | h
    · rcases handled_stepIdx_sub s e x h with h' | h'
      · exact Or.inr (by simp [h'])
      · exact Or.inl h'
    · exact Or.inr (List.mem_cons_of_mem _ h)

/-- Generic newest-first first-write-wins fold lemma: if a view of the state
evolves by `ofirst` with a per-entry contribution on every non-skipped step,
and all entry hashes are fresh and pairwise distinct (content-addressed log
entries), the fold computes the first hit over the processing order. -/
theorem foldView {α : Type} (view : MetadataStoreIndex → Option α) (f : Entry → Option α)
    (hstep : ∀ s e, ¬(s.group.groupType ≠ .account ∧ e.hash ∈ s.handledEvents) →
      view (stepIdx s e) = ofirst (view s) (f e)) :
    ∀ (L : List Entry) (s : MetadataStoreIndex),
      (L.map Entry.hash).Nodup → (∀ e ∈ L, e.hash ∉ s.handledEvents) →
      view (L.foldl stepIdx s) = ofirst (view s) (firstHit f L) := by
  intro L
  induction L with
  | nil =>
    intro s _ _
    simp [firstHit]
  | cons e L ih =>
    intro s hnd hfresh
    have hskip : ¬(s.group.groupType ≠ .account ∧ e.hash ∈ s.handledEvents) := by
      intro h
      exact hfresh e (List.mem_cons_self _ _) h.2
    have hnd' : (L.map Entry.hash).Nodup := by
      simp only [List.map_cons, List.nodup_cons] at hnd
      exact hnd.2
    have hhead : e.hash ∉ L.map Entry.hash := by
      simp only [List.map_cons, List.nodup_cons] at hnd
      exact hnd.1
    have hfresh' : ∀ e' ∈ L, e'.hash ∉ (stepIdx s e).handledEvents := by
      intro e' he' hmem
      rcases handled_stepIdx_sub s e e'.hash hmem with h | h
      · exact hhead (h ▸ List.mem_map_of_mem Entry.hash he')
      · exact hfresh e' (List.mem_cons_of_mem _ he') h
    rw [List.foldl_cons, ih (stepIdx s e) hnd' hfresh', hstep s e hskip,
      firstHit_cons, ofirst_assoc]

/-! ## Contact state machine: first-write-wins on `state` -/

/-- The `state` stored for a contact key. -/
def contactStateView (m : MetadataStoreIndex) (pk : Bytes) : Option ContactState :=
  (mapLookup m.contacts pk).map AccountContact.state

/-- The state a contact-request event induces on record creation (the table
of §4.3 of the spec; an enqueued event with a nil contact induces nothing). -/
def inducedContactState : Event → Option (Bytes × ContactState)
  | .accountContactRequestOutgoingEnqueued contact _ => contact.map fun c => (c.pk, .toRequest)
  | .accountContactRequestOutgoingSent pk => some (pk, .added)
  | .accountContactRequestIncomingReceived pk _ _ => some (pk, .received)
  | .accountContactRequestIncomingDiscarded pk => some (pk, .discarded)
  | .accountContactRequestIncomingAccepted pk => some (pk, .added)
  | .accountContactBlocked pk => some (pk, .blocked)
  | .accountContactUnblocked pk => some (pk, .removed)
  | _ => none

/-- The state contribution of one log entry to one contact key. -/
def entryContactState (e : Entry) (pk : Bytes) : Option ContactState :=
  match e.decoded with
  | none => none
  | some ev =>
    match inducedContactState ev with
    | some (q, st) => if q = pk then some st else none
    | none => none

theorem registerContact_contacts (m : MetadataStoreIndex) (ac : AccountContact) :
    (m.registerContactFromGroupPK ac).1.contacts = m.contacts := by
  unfold registerContactFromGroupPK
  (repeat' split) <;> rfl

theorem stateView_insert_absent (l : List (Bytes × AccountContact)) (q pk : Bytes)
    (ac : AccountContact) (h : mapLookup l q = none) :
    (mapLookup (mapInsert l q ac) pk).map AccountContact.state =
      ofirst ((mapLookup l pk).map AccountContact.state)
        (if q = pk then some ac.state else none) := by
  by_cases hq : q = pk
  · subst hq
    rw [mapLookup_insert_self, h]
    simp
  · rw [mapLookup_insert_ne _ _ _ _ hq, if_neg hq, ofirst_none_right]

theorem stateView_existing (l : List (Bytes × AccountContact)) (q pk : Bytes)
    (ac0 : AccountContact) (st : ContactState) (h : mapLookup l q = some ac0) :
    (mapLookup l pk).map AccountContact.state =
      ofirst ((mapLookup l pk).map AccountContact.state)
        (if q = pk then some st else none) := by
  by_cases hq : q = pk
  · subst hq
    rw [h]
    simp
  · rw [if_neg hq, ofirst_none_right]

theorem stateView_fill (l : List (Bytes × AccountContact)) (q pk : Bytes)
    (ac0 ac1 : AccountContact) (h : mapLookup l q = some ac0)
    (hst : ac1.state = ac0.state) :
    (mapLookup (mapInsert l q ac1) pk).map AccountContact.state =
      (mapLookup l pk).map AccountContact.state := by
  by_cases hq : q = pk
  · subst hq
    rw [mapLookup_insert_self, h]
    simp [hst]
  · rw [mapLookup_insert_ne _ _ _ _ hq]

/-- Per-dispatch evolution of the contact-state view: a handler either leaves
the state of a key unchanged or creates the key in the induced state. -/
theorem contactStateView_handleEvent (m : MetadataStoreIndex) (ev : Event) (pk : Bytes) :
    contactStateView (handleEvent m ev).1 pk =
      ofirst (contactStateView m pk)
        (match inducedContactState ev with
         | some (q, st) => if q = pk then some st else none
         | none => none) := by
  unfold contactStateView
  cases ev with
  | accountContactRequestOutgoingEnqueued contact ownMetadata =>
    cases contact with
    | none => simp [handleEvent, handleContactRequestOutgoingEnqueued, inducedContactState]
    | some c =>
      simp only [handleEvent, handleContactRequestOutgoingEnqueued, inducedContactState,
        Option.map_some]
      rcases hl : mapLookup m.contacts c.pk with _ | ac0
      · simp only []
        rw [registerContact_contacts]
        exact stateView_insert_absent _ _ _ _ hl
      · simp only []
        refine (stateView_fill _ _ _ ac0 _ hl ?_).trans (stateView_existing _ _ _ ac0 _ hl)
        (repeat' split) <;> rfl
  | accountContactRequestOutgoingSent q =>
    simp only [handleEvent, handleContactRequestOutgoingSent, inducedContactState]
    rcases hl : mapLookup m.contacts q with _ | ac0
    · simp only []
      rw [registerContact_contacts]
      exact stateView_insert_absent _ _ _ _ hl
    · exact stateView_existing _ _ _ ac0 _ hl
  | accountContactRequestIncomingReceived q md sd =>
    simp only [handleEvent, handleContactRequestIncomingReceived, inducedContactState]
    rcases hl : mapLookup m.contacts q with _ | ac0
    · simp only []
      rw [registerContact_contacts]
      exact stateView_insert_absent _ _ _ _ hl
    · simp only []
      refine (stateView_fill _ _ _ ac0 _ hl ?_).trans (stateView_existing _ _ _ ac0 _ hl)
      (repeat' split) <;> rfl
  | accountContactRequestIncomingDiscarded q =>
    simp only [handleEvent, handleContactRequestIncomingDiscarded, inducedContactState]
    rcases hl : mapLookup m.contacts q with _ | ac0
    · simp only []
      rw [registerContact_contacts]
      exact stateView_insert_absent _ _ _ _ hl
    · exact stateView_existing _ _ _ ac0 _ hl
  | accountContactRequestIncomingAccepted q =>
    simp only [handleEvent, handleContactRequestIncomingAccepted, inducedContactState]
    rcases hl : mapLookup m.contacts q with _ | ac0
    · simp only []
      rw [registerContact_contacts]
      exact stateView_insert_absent _ _ _ _ hl
    · exact stateView_existing _ _ _ ac0 _ hl
  | accountContactBlocked q =>
    simp only [handleEvent, handleContactBlocked, inducedContactState]
    rcases hl : mapLookup m.contacts q with _ | ac0
    · simp only []
      rw [registerContact_contacts]
      exact stateView_insert_absent _ _ _ _ hl
    · exact stateView_existing _ _ _ ac0 _ hl
  | accountContactUnblocked q =>
    simp only [handleEvent, handleContactUnblocked, inducedContactState]
    rcases hl : mapLookup m.contacts q with _ | ac0
    · simp only []
      rw [registerContact_contacts]
      exact stateView_insert_absent _ _ _ _ hl
    · exact stateView_existing _ _ _ ac0 _ hl
  | groupMemberDeviceAdded a b =>
    simp only [handleEvent, handleGroupMemberDeviceAdded, inducedContactState]
    (repeat' split) <;> simp
  | groupDeviceChainKeyAdded a b =>
    simp only [handleEvent, handleGroupDeviceChainKeyAdded, inducedContactState]
    (repeat' split) <;> simp
  | accountGroupJoined g =>
    simp only [handleEvent, handleGroupJoined, inducedContactState]
    (repeat' split) <;> simp
  | accountGroupLeft g =>
    simp only [handleEvent, handleGroupLeft, inducedContactState]
    (repeat' split) <;> simp
  | accountContactRequestDisabled =>
    simp only [handleEvent, handleContactRequestDisabled, inducedContactState]
    (repeat' split) <;> simp
  | accountContactRequestEnabled =>
    simp only [handleEvent, handleContactRequestEnabled, inducedContactState]
    (repeat' split) <;> simp
  | accountContactRequestReferenceReset s =>
    simp only [handleEvent, handleContactRequestReferenceReset, inducedContactState]
    (repeat' split) <;> simp
  | contactAliasKeyAdded a b =>
    simp [handleEvent, handleContactAliasKeyAdded, inducedContactState]
  | accountServiceTokenAdded t =>
    simp only [handleEvent, handleAccountServiceTokenAdded, inducedContactState]
    (repeat' split) <;> simp
  | accountServiceTokenRemoved t =>
    simp [handleEvent, handleAccountServiceTokenRemoved, inducedContactState]
  | multiMemberGroupInitialMemberAnnounced a =>
    simp only [handleEvent, handleMultiMemberInitialMember, inducedContactState]
    (repeat' split) <;> simp
  | multiMemberGroupAdminRoleGranted =>
    simp [handleEvent, handleMultiMemberGrantAdminRole, inducedContactState]
  | groupMetadataPayloadSent =>
    simp [handleEvent, handleGroupMetadataPayloadSent, inducedContactState]
  | accountVerifiedCredentialRegistered c =>
    simp [handleEvent, handleAccountVerifiedCredentialRegistered, inducedContactState]
  | otherEvent t =>
    simp [handleEvent, inducedContactState]

theorem contactStateView_markHandled (m : MetadataStoreIndex) (h : Nat) (pk : Bytes) :
    contactStateView (markHandled m h) pk = contactStateView m pk := rfl

/-- Per-step evolution of the contact-state view on a fresh entry. -/
theorem contactStateView_stepIdx (s : MetadataStoreIndex) (e : Entry) (pk : Bytes)
    (h : ¬(s.group.groupType ≠ .account ∧ e.hash ∈ s.handledEvents)) :
    contactStateView (stepIdx s e) pk =
      ofirst (contactStateView s pk) (entryContactState e pk) := by
  unfold stepIdx
  rw [if_neg h]
  rcases hd : e.decoded with _ | ev
  · simp [entryContactState, hd]
  · show contactStateView (markHandled (handleEvent s ev).1 e.hash) pk = _
    rw [contactStateView_markHandled, contactStateView_handleEvent]
    unfold entryContactState
    rw [hd]

/-! ## The post-action touches only the alias fields -/

theorem aliasLoop_cons_error (m : MetadataStoreIndex) (evt : Bytes × Bytes)
    (rest : List (Bytes × Bytes)) (er : Err)
    (h : unsafeGetMemberByDevice m evt.1 = .error er) :
    aliasLoop m (evt :: rest) = (m, some .plainError) := by
  unfold aliasLoop
  rw [h]

theorem aliasLoop_cons_own (m : MetadataStoreIndex) (evt : Bytes × Bytes)
    (rest : List (Bytes × Bytes)) (b : Bytes)
    (h : unsafeGetMemberByDevice m evt.1 = .ok b) (hb : b = m.ownMemberDevice.member) :
    aliasLoop m (evt :: rest) = aliasLoop { m with ownAliasKeySent := true } rest := by
  conv_lhs => unfold aliasLoop
  rw [h]
  change (if b = m.ownMemberDevice.member then _ else _) = _
  rw [if_pos hb]

theorem aliasLoop_cons_foreign_bad (m : MetadataStoreIndex) (evt : Bytes × Bytes)
    (rest : List (Bytes × Bytes)) (b : Bytes)
    (h : unsafeGetMemberByDevice m evt.1 = .ok b) (hb : b ≠ m.ownMemberDevice.member)
    (hlen : evt.2.length ≠ keySize) :
    aliasLoop m (evt :: rest) = (m, some .invalidInput) := by
  conv_lhs => unfold aliasLoop
  rw [h]
  change (if b = m.ownMemberDevice.member then _ else _) = _
  rw [if_neg hb, if_pos hlen]

theorem aliasLoop_cons_foreign (m : MetadataStoreIndex) (evt : Bytes × Bytes)
    (rest : List (Bytes × Bytes)) (b : Bytes)
    (h : unsafeGetMemberByDevice m evt.1 = .ok b) (hb : b ≠ m.ownMemberDevice.member)
    (hlen : ¬evt.2.length ≠ keySize) :
    aliasLoop m (evt :: rest) = aliasLoop { m with otherAliasKey := some evt.2 } rest := by
  conv_lhs => unfold aliasLoop
  rw [h]
  change (if b = m.ownMemberDevice.member then _ else _) = _
  rw [if_neg hb, if_neg hlen]

theorem aliasLoop_preserves (q : List (Bytes × Bytes)) (m : MetadataStoreIndex) :
    (aliasLoop m q).1.contacts = m.contacts ∧
    (aliasLoop m q).1.contactsFromGroupPK = m.contactsFromGroupPK ∧
    (aliasLoop m q).1.groups = m.groups ∧
    (aliasLoop m q).1.serviceTokens = m.serviceTokens ∧
    (aliasLoop m q).1.members = m.members ∧
    (aliasLoop m q).1.devices = m.devices ∧
    (aliasLoop m q).1.admins = m.admins ∧
    (aliasLoop m q).1.sentSecrets = m.sentSecrets ∧
    (aliasLoop m q).1.handledEvents = m.handledEvents ∧
    (aliasLoop m q).1.verifiedCredentials = m.verifiedCredentials ∧
    (aliasLoop m q).1.contactRequestMetadata = m.contactRequestMetadata ∧
    (aliasLoop m q).1.contactRequestSeed = m.contactRequestSeed ∧
    (aliasLoop m q).1.contactRequestEnabled = m.contactRequestEnabled ∧
    (aliasLoop m q).1.group = m.group ∧
    (aliasLoop m q).1.ownMemberDevice = m.ownMemberDevice ∧
    (aliasLoop m q).1.secretStore = m.secretStore ∧
    (aliasLoop m q).1.adminPtrCtr = m.adminPtrCtr := by
  induction q generalizing m with
  | nil =>
    repeat' apply And.intro
    all_goals rfl
  | cons evt rest ih =>
    rcases hres : unsafeGetMemberByDevice m evt.1 with er | b
    · rw [aliasLoop_cons_error m evt rest er hres]
      repeat' apply And.intro
      all_goals rfl
    · by_cases hown : b = m.ownMemberDevice.member
      · rw [aliasLoop_cons_own m evt rest b hres hown]
        exact ih _
      · by_cases hlen : evt.2.length ≠ keySize
        · rw [aliasLoop_cons_foreign_bad m evt rest b hres hown hlen]
          repeat' apply And.intro
          all_goals rfl
        · rw [aliasLoop_cons_foreign m evt rest b hres hown hlen]
          exact ih _

/-- `updateIndex` result state is the post-action applied to the fold. -/
theorem updateIndex_fst (m : MetadataStoreIndex) (entries : List Entry) :
    (updateIndex m entries).1 =
      (postHandlerSentAliases (entries.reverse.foldl stepIdx (resetState m))).1 := by
  simp only [updateIndex]
  rcases h : postHandlerSentAliases (entries.reverse.foldl stepIdx (resetState m)) with ⟨m2, e⟩
  cases e <;> rfl

theorem updateIndex_contacts (m : MetadataStoreIndex) (entries : List Entry) :
    (updateIndex m entries).1.contacts =
      (entries.reverse.foldl stepIdx (resetState m)).contacts := by
  rw [updateIndex_fst]
  exact (aliasLoop_preserves _ _).1

/-! ## Group roster: first-write-wins on the roster state -/

theorem projView_insert_absent {K V α : Type} [DecidableEq K] (proj : V → α)
    (l : List (K × V)) (q pk : K) (v : V) (h : mapLookup l q = none) :
    (mapLookup (mapInsert l q v) pk).map proj =
      ofirst ((mapLookup l pk).map proj) (if q = pk then some (proj v) else none) := by
  by_cases hq : q = pk
  · subst hq
    rw [mapLookup_insert_self, h]
    simp
  · rw [mapLookup_insert_ne _ _ _ _ hq, if_neg hq, ofirst_none_right]

theorem projView_existing {K V α : Type} [DecidableEq K] (proj : V → α)
    (l : List (K × V)) (q pk : K) (v0 : V) (x : α) (h : mapLookup l q = some v0) :
    (mapLookup l pk).map proj =
      ofirst ((mapLookup l pk).map proj) (if q = pk then some x else none) := by
  by_cases hq : q = pk
  · subst hq
    rw [h]
    simp
  · rw [if_neg hq, ofirst_none_right]

theorem registerContact_groups (m : MetadataStoreIndex) (ac : AccountContact) :
    (m.registerContactFromGroupPK ac).1.groups = m.groups := by
  unfold registerContactFromGroupPK
  (repeat' split) <;> rfl

/-- The roster state stored for a group key. -/
def groupStateView (m : MetadataStoreIndex) (gpk : Bytes) : Option AccountGroupJoinedState :=
  (mapLookup m.groups gpk).map AccountGroup.state

/-- The roster state a join/leave event induces. -/
def inducedGroupState : Event → Option (Bytes × AccountGroupJoinedState)
  | .accountGroupJoined g => some (g.publicKey, .joined)
  | .accountGroupLeft gpk => some (gpk, .left)
  | _ => none

/-- The roster contribution of one log entry to one group key. -/
def entryGroupState (e : Entry) (gpk : Bytes) : Option AccountGroupJoinedState :=
  match e.decoded with
  | none => none
  | some ev =>
    match inducedGroupState ev with
    | some (q, st) => if q = gpk then some st else none
    | none => none

/-- Per-dispatch evolution of the roster view: join/leave create the key in
the induced state when absent and are ignored otherwise; no other handler
touches the roster. -/
theorem groupStateView_handleEvent (m : MetadataStoreIndex) (ev : Event) (gpk : Bytes) :
    groupStateView (handleEvent m ev).1 gpk =
      ofirst (groupStateView m gpk)
        (match inducedGroupState ev with
         | some (q, st) => if q = gpk then some st else none
         | none => none) := by
  unfold groupStateView
  cases ev with
  | accountGroupJoined g =>
    simp only [handleEvent, handleGroupJoined, inducedGroupState]
    rcases hl : mapLookup m.groups g.publicKey with _ | g0
    · simp only [Option.isSome_none, Bool.false_eq_true, if_false]
      exact projView_insert_absent AccountGroup.state _ _ _ _ hl
    · simp only [hl, Option.isSome_some, if_true]
      exact projView_existing AccountGroup.state _ _ _ g0 _ hl
  | accountGroupLeft q =>
    simp only [handleEvent, handleGroupLeft, inducedGroupState]
    rcases hl : mapLookup m.groups q with _ | g0
    · simp only [Option.isSome_none, Bool.false_eq_true, if_false]
      exact projView_insert_absent AccountGroup.state _ _ _ _ hl
    · simp only [hl, Option.isSome_some, if_true]
      exact projView_existing AccountGroup.state _ _ _ g0 _ hl
  | accountContactRequestOutgoingEnqueued contact ownMetadata =>
    cases contact with
    | none => simp [handleEvent, handleContactRequestOutgoingEnqueued, inducedGroupState]
    | some c =>
      simp only [handleEvent, handleContactRequestOutgoingEnqueued, inducedGroupState]
      rcases hl : mapLookup m.contacts c.pk with _ | ac0 <;> simp only []
      · rw [registerContact_groups]
        simp
      · simp
  | accountContactRequestOutgoingSent q =>
    simp only [handleEvent, handleContactRequestOutgoingSent, inducedGroupState]
    rcases hl : mapLookup m.contacts q with _ | ac0 <;> simp only []
    · rw [registerContact_groups]
      simp
    · simp
  | accountContactRequestIncomingReceived q md sd =>
    simp only [handleEvent, handleContactRequestIncomingReceived, inducedGroupState]
    rcases hl : mapLookup m.contacts q with _ | ac0 <;> simp only []
    · rw [registerContact_groups]
      simp
    · simp
  | accountContactRequestIncomingDiscarded q =>
    simp only [handleEvent, handleContactRequestIncomingDiscarded, inducedGroupState]
    rcases hl : mapLookup m.contacts q with _ | ac0 <;> simp only []
    · rw [registerContact_groups]
      simp
    · simp
  | accountContactRequestIncomingAccepted q =>
    simp only [handleEvent, handleContactRequestIncomingAccepted, inducedGroupState]
    rcases hl : mapLookup m.contacts q with _ | ac0 <;> simp only []
    · rw [registerContact_groups]
      simp
    · simp
  | accountContactBlocked q =>
    simp only [handleEvent, handleContactBlocked, inducedGroupState]
    rcases hl : mapLookup m.contacts q with _ | ac0 <;> simp only []
    · rw [registerContact_groups]
      simp
    · simp
  | accountContactUnblocked q =>
    simp only [handleEvent, handleContactUnblocked, inducedGroupState]
    rcases hl : mapLookup m.contacts q with _ | ac0 <;> simp only []
    · rw [registerContact_groups]
      simp
    · simp
  | groupMemberDeviceAdded a b =>
    simp only [handleEvent, handleGroupMemberDeviceAdded, inducedGroupState]
    (repeat' split) <;> simp
  | groupDeviceChainKeyAdded a b =>
    simp only [handleEvent, handleGroupDeviceChainKeyAdded, inducedGroupState]
    (repeat' split) <;> simp
  | accountContactRequestDisabled =>
    simp only [handleEvent, handleContactRequestDisabled, inducedGroupState]
    (repeat' split) <;> simp
  | accountContactRequestEnabled =>
    simp only [handleEvent, handleContactRequestEnabled, inducedGroupState]
    (repeat' split) <;> simp
  | accountContactRequestReferenceReset s =>
    simp only [handleEvent, handleContactRequestReferenceReset, inducedGroupState]
    (repeat' split) <;> simp
  | contactAliasKeyAdded a b =>
    simp [handleEvent, handleContactAliasKeyAdded, inducedGroupState]
  | accountServiceTokenAdded t =>
    simp only [handleEvent, handleAccountServiceTokenAdded, inducedGroupState]
    (repeat' split) <;> simp
  | accountServiceTokenRemoved t =>
    simp [handleEvent, handleAccountServiceTokenRemoved, inducedGroupState]
  | multiMemberGroupInitialMemberAnnounced a =>
    simp only [handleEvent, handleMultiMemberInitialMember, inducedGroupState]
    (repeat' split) <;> simp
  | multiMemberGroupAdminRoleGranted =>
    simp [handleEvent, handleMultiMemberGrantAdminRole, inducedGroupState]
  | groupMetadataPayloadSent =>
    simp [handleEvent, handleGroupMetadataPayloadSent, inducedGroupState]
  | accountVerifiedCredentialRegistered c =>
    simp [handleEvent, handleAccountVerifiedCredentialRegistered, inducedGroupState]
  | otherEvent t =>
    simp [handleEvent, inducedGroupState]

/-- Per-step evolution of the roster view on a fresh entry. -/
theorem groupStateView_stepIdx (s : MetadataStoreIndex) (e : Entry) (gpk : Bytes)
    (h : ¬(s.group.groupType ≠ .account ∧ e.hash ∈ s.handledEvents)) :
    groupStateView (stepIdx s e) gpk =
      ofirst (groupStateView s gpk) (entryGroupState e gpk) := by
  unfold stepIdx
  rw [if_neg h]
  rcases hd : e.decoded with _ | ev
  · simp [entryGroupState, hd]
  · show groupStateView (markHandled (handleEvent s ev).1 e.hash) gpk = _
    have hmark : groupStateView (markHandled (handleEvent s ev).1 e.hash) gpk
        = groupStateView (handleEvent s ev).1 gpk := rfl
    rw [hmark, groupStateView_handleEvent]
    unfold entryGroupState
    rw [hd]

theorem updateIndex_groups (m : MetadataStoreIndex) (entries : List Entry) :
    (updateIndex m entries).1.groups =
      (entries.reverse.foldl stepIdx (resetState m)).groups := by
  rw [updateIndex_fst]
  exact (aliasLoop_preserves _ _).2.2.1

theorem resetState_handled (m : MetadataStoreIndex) :
    (resetState m).handledEvents = [] := rfl

/-! ## Spec-side first-hit readings (from the spec's words) -/

/-- Follows the spec's words: "the value of `state` reflects the newest event
in log order pertaining to that contactPK" — scan the log newest-first and
take the state induced by the first pertaining event. -/
def specNewestContactState (entries : List Entry) (pk : Bytes) : Option ContactState :=
  firstHit (fun e => entryContactState e pk) entries.reverse

/-- Follows the spec's words: "`groups[groupPK].state` equals the state
induced by the newest join/leave event for that groupPK". -/
def specNewestGroupState (entries : List Entry) (gpk : Bytes) : Option AccountGroupJoinedState :=
  firstHit (fun e => entryGroupState e gpk) entries.reverse

/-! ## Concrete fixtures for witnesses and counterexamples -/

/-- 32-byte member key. -/
def keyA : Bytes := List.replicate 32 1

/-- 32-byte device key of the own device. -/
def keyDA : Bytes := List.replicate 32 2

/-- 32-byte member key of a foreign member. -/
def keyB : Bytes := List.replicate 32 3

/-- 32-byte device key of a foreign device. -/
def keyDB : Bytes := List.replicate 32 4

/-- 32-byte alias key sent by the own member. -/
def keyKOwn : Bytes := List.replicate 32 5

/-- 32-byte alias key sent by a foreign member. -/
def keyKOther : Bytes := List.replicate 32 6

/-- 32-byte contact key. -/
def keyC : Bytes := List.replicate 32 7

/-- A freshly constructed index (`newMetadataIndex`) bound to an Account
group, with a secret store that derives a group for every contact. -/
def accIdx : MetadataStoreIndex :=
  { members := [], devices := [], handledEvents := [], sentSecrets := [],
    admins := [], adminPtrCtr := 0, contacts := [], contactsFromGroupPK := [],
    groups := [], serviceTokens := [], contactRequestMetadata := [],
    verifiedCredentials := [], contactRequestSeed := none,
    contactRequestEnabled := none, eventsContactAddAliasKey := [],
    ownAliasKeySent := false, otherAliasKey := none,
    group := ⟨[9], .account⟩, ownMemberDevice := ⟨keyA, keyDA⟩,
    secretStore := fun pk => some ⟨0 :: pk, .contact⟩ }

/-- The same fresh index bound to a MultiMember group. -/
def mmIdx : MetadataStoreIndex :=
  { accIdx with group := ⟨[9], .multiMember⟩ }

/-- The same fresh index bound to a Contact group. -/
def ctIdx : MetadataStoreIndex :=
  { accIdx with group := ⟨[9], .contact⟩ }

/-- Scenario S2 of the spec: oldest-first, an enqueued request carrying
metadata and seed, then an outgoing-sent for the same contact. -/
def entriesS2 : List Entry :=
  [ ⟨1, some (.accountContactRequestOutgoingEnqueued
        (some ⟨keyC, some [11], some [12]⟩) [13])⟩,
    ⟨2, some (.accountContactRequestOutgoingSent keyC)⟩ ]

/-! ## C1 -/

/-- C1: for every log whose entry hashes are distinct (content-addressed
entries) and every contactPK, after `updateIndex` the contact record's
`state` is exactly the state induced by the newest pertaining contact event
in log order: replay is newest-first and the eight contact handlers never
change the `state` of an existing record, they only create absent records in
the induced state (optional fields are filled separately). -/
theorem c1_contact_state_newest (m : MetadataStoreIndex) (entries : List Entry) (pk : Bytes)
    (hnd : (entries.map Entry.hash).Nodup) :
    contactStateView (updateIndex m entries).1 pk = specNewestContactState entries pk := by
  have h1 : contactStateView (updateIndex m entries).1 pk
      = contactStateView (entries.reverse.foldl stepIdx (resetState m)) pk := by
    unfold contactStateView
    rw [updateIndex_contacts]
  have hnd' : (entries.reverse.map Entry.hash).Nodup := by
    rw [List.map_reverse]
    exact List.nodup_reverse.mpr hnd
  have hfresh : ∀ e ∈ entries.reverse, e.hash ∉ (resetState m).handledEvents := by
    intro e _
    rw [resetState_handled]
    exact List.not_mem_nil _
  have h2 : contactStateView (entries.reverse.foldl stepIdx (resetState m)) pk
      = ofirst (contactStateView (resetState m) pk)
          (firstHit (fun e => entryContactState e pk) entries.reverse) :=
    foldView (fun s => contactStateView s pk) (fun e => entryContactState e pk)
      (fun s e h => contactStateView_stepIdx s e pk h) entries.reverse (resetState m) hnd' hfresh
  have h3 : contactStateView (resetState m) pk = none := rfl
  rw [h1, h2, h3, ofirst_none_left]
  rfl

/-- Witness for C1 on scenario S2: the newest event (OutgoingSent) fixes the
state `Added` even though an older enqueued event exists. -/
theorem c1_contact_state_newest_witness :
    (entriesS2.map Entry.hash).Nodup ∧
      contactStateView (updateIndex accIdx entriesS2).1 keyC = some .added := by
  refine ⟨by decide, ?_⟩
  rw [c1_contact_state_newest accIdx entriesS2 keyC (by decide)]
  decide

/-! ## C6 -/

/-- C6: for every log with distinct entry hashes and every groupPK, after
`updateIndex` the roster entry's state equals the state (Joined or Left)
induced by the newest AccountGroupJoined/AccountGroupLeft event for that
groupPK in log order: both handlers ignore the event when a record already
exists and replay is newest-first. -/
theorem c6_group_state_newest (m : MetadataStoreIndex) (entries : List Entry) (gpk : Bytes)
    (hnd : (entries.map Entry.hash).Nodup) :
    groupStateView (updateIndex m entries).1 gpk = specNewestGroupState entries gpk := by
  have h1 : groupStateView (updateIndex m entries).1 gpk
      = groupStateView (entries.reverse.foldl stepIdx (resetState m)) gpk := by
    unfold groupStateView
    rw [updateIndex_groups]
  have hnd' : (entries.reverse.map Entry.hash).Nodup := by
    rw [List.map_reverse]
    exact List.nodup_reverse.mpr hnd
  have hfresh : ∀ e ∈ entries.reverse, e.hash ∉ (resetState m).handledEvents := by
    intro e _
    rw [resetState_handled]
    exact List.not_mem_nil _
  have h2 : groupStateView (entries.reverse.foldl stepIdx (resetState m)) gpk
      = ofirst (groupStateView (resetState m) gpk)
          (firstHit (fun e => entryGroupState e gpk) entries.reverse) :=
    foldView (fun s => groupStateView s gpk) (fun e => entryGroupState e gpk)
      (fun s e h => groupStateView_stepIdx s e gpk h) entries.reverse (resetState m) hnd' hfresh
  have h3 : groupStateView (resetState m) gpk = none := rfl
  rw [h1, h2, h3, ofirst_none_left]
  rfl

/-- Log for the roster witness: join then leave the same group (oldest
first); the newest event is the leave. -/
def entriesJoinLeave : List Entry :=
  [ ⟨1, some (.accountGroupJoined ⟨keyB, .multiMember⟩)⟩,
    ⟨2, some (.accountGroupLeft keyB)⟩ ]

/-- Witness for C6: after joining then leaving, the roster shows Left (the
newest event wins). -/
theorem c6_group_state_newest_witness :
    (entriesJoinLeave.map Entry.hash).Nodup ∧
      groupStateView (updateIndex accIdx entriesJoinLeave).1 keyB = some .left := by
  refine ⟨by decide, ?_⟩
  rw [c6_group_state_newest accIdx entriesJoinLeave keyB (by decide)]
  decide

/-! ## C5: service-token tombstones -/

theorem isSome_false_eq_none {α : Type} {o : Option α} (h : ¬o.isSome = true) : o = none := by
  cases o with
  | none => rfl
  | some v => simp at h

/-- Once a token id is tombstoned, no dispatch revives it: re-adds see the
key as present and removals rewrite the tombstone. -/
theorem tombstone_handleEvent (m : MetadataStoreIndex) (ev : Event) (tid : Nat)
    (h : mapLookup m.serviceTokens tid = some none) :
    mapLookup (handleEvent m ev).1.serviceTokens tid = some none := by
  cases ev with
  | accountServiceTokenAdded tok =>
    simp only [handleEvent, handleAccountServiceTokenAdded]
    split
    · exact h
    · next hns =>
      exact mapLookup_insert_preserve _ h (isSome_false_eq_none hns)
  | accountServiceTokenRemoved tid2 =>
    simp only [handleEvent, handleAccountServiceTokenRemoved]
    by_cases he : tid2 = tid
    · subst he
      rw [mapLookup_insert_self]
    · rw [mapLookup_insert_ne _ _ _ _ he]
      exact h
  | groupMemberDeviceAdded a b =>
    simp only [handleEvent, handleGroupMemberDeviceAdded]
    (repeat' split) <;> exact h
  | groupDeviceChainKeyAdded a b =>
    simp only [handleEvent, handleGroupDeviceChainKeyAdded]
    (repeat' split) <;> exact h
  | accountGroupJoined g =>
    simp only [handleEvent, handleGroupJoined]
    (repeat' split) <;> exact h
  | accountGroupLeft g =>
    simp only [handleEvent, handleGroupLeft]
    (repeat' split) <;> exact h
  | accountContactRequestDisabled =>
    simp only [handleEvent, handleContactRequestDisabled]
    (repeat' split) <;> exact h
  | accountContactRequestEnabled =>
    simp only [handleEvent, handleContactRequestEnabled]
    (repeat' split) <;> exact h
  | accountContactRequestReferenceReset s =>
    simp only [handleEvent, handleContactRequestReferenceReset]
    (repeat' split) <;> exact h
  | accountContactRequestOutgoingEnqueued c om =>
    simp only [handleEvent, handleContactRequestOutgoingEnqueued, registerContactFromGroupPK]
    (repeat' split) <;> exact h
  | accountContactRequestOutgoingSent q =>
    simp only [handleEvent, handleContactRequestOutgoingSent, registerContactFromGroupPK]
    (repeat' split) <;> exact h
  | accountContactRequestIncomingReceived q a b =>
    simp only [handleEvent, handleContactRequestIncomingReceived, registerContactFromGroupPK]
    (repeat' split) <;> exact h
  | accountContactRequestIncomingDiscarded q =>
    simp only [handleEvent, handleContactRequestIncomingDiscarded, registerContactFromGroupPK]
    (repeat' split) <;> exact h
  | accountContactRequestIncomingAccepted q =>
    simp only [handleEvent, handleContactRequestIncomingAccepted, registerContactFromGroupPK]
    (repeat' split) <;> exact h
  | accountContactBlocked q =>
    simp only [handleEvent, handleContactBlocked, registerContactFromGroupPK]
    (repeat' split) <;> exact h
  | accountContactUnblocked q =>
    simp only [handleEvent, handleContactUnblocked, registerContactFromGroupPK]
    (repeat' split) <;> exact h
  | contactAliasKeyAdded a b =>
    exact h
  | multiMemberGroupInitialMemberAnnounced a =>
    simp only [handleEvent, handleMultiMemberInitialMember]
    (repeat' split) <;> exact h
  | multiMemberGroupAdminRoleGranted => exact h
  | groupMetadataPayloadSent => exact h
  | accountVerifiedCredentialRegistered c => exact h
  | otherEvent t => exact h

theorem tombstone_stepIdx (s : MetadataStoreIndex) (e : Entry) (tid : Nat)
    (h : mapLookup s.serviceTokens tid = some none) :
    mapLookup (stepIdx s e).serviceTokens tid = some none := by
  unfold stepIdx
  split
  · exact h
  · rcases hd : e.decoded with _ | ev
    · exact h
    · show mapLookup (markHandled (handleEvent s ev).1 e.hash).serviceTokens tid = some none
      exact tombstone_handleEvent s ev tid h

theorem tombstone_foldl (L : List Entry) (s : MetadataStoreIndex) (tid : Nat)
    (h : mapLookup s.serviceTokens tid = some none) :
    mapLookup (L.foldl stepIdx s).serviceTokens tid = some none := by
  induction L generalizing s with
  | nil => exact h
  | cons e L ih =>
    rw [List.foldl_cons]
    exact ih (stepIdx s e) (tombstone_stepIdx s e tid h)

/-- Well-formedness of the token registry: distinct keys, and every stored
token lives under its own `TokenID()`. -/
def TokensWF (m : MetadataStoreIndex) : Prop :=
  NodupKeys m.serviceTokens ∧
    ∀ p ∈ m.serviceTokens, ∀ t : ServiceToken, p.2 = some t → t.tokenID = p.1

theorem tokensWF_handleEvent (m : MetadataStoreIndex) (ev : Event) (h : TokensWF m) :
    TokensWF (handleEvent m ev).1 := by
  have hIns : ∀ (tid : Nat) (v : Option ServiceToken),
      (∀ t : ServiceToken, v = some t → t.tokenID = tid) →
      TokensWF { m with serviceTokens := mapInsert m.serviceTokens tid v } := by
    intro tid v hv
    refine ⟨nodupKeys_mapInsert tid v h.1, ?_⟩
    intro p hp t hpt
    rcases mem_mapInsert hp with hmem | hmem
    · exact h.2 p hmem t hpt
    · subst hmem
      exact hv t hpt
  cases ev with
  | accountServiceTokenAdded tok =>
    simp only [handleEvent, handleAccountServiceTokenAdded]
    split
    · exact h
    · exact hIns tok.tokenID (some tok) (by intro t ht; cases ht; rfl)
  | accountServiceTokenRemoved tid2 =>
    simp only [handleEvent, handleAccountServiceTokenRemoved]
    exact hIns tid2 none (by intro t ht; cases ht)
  | groupMemberDeviceAdded a b =>
    simp only [handleEvent, handleGroupMemberDeviceAdded]
    (repeat' split) <;> exact h
  | groupDeviceChainKeyAdded a b =>
    simp only [handleEvent, handleGroupDeviceChainKeyAdded]
    (repeat' split) <;> exact h
  | accountGroupJoined g =>
    simp only [handleEvent, handleGroupJoined]
    (repeat' split) <;> exact h
  | accountGroupLeft g =>
    simp only [handleEvent, handleGroupLeft]
    (repeat' split) <;> exact h
  | accountContactRequestDisabled =>
    simp only [handleEvent, handleContactRequestDisabled]
    (repeat' split) <;> exact h
  | accountContactRequestEnabled =>
    simp only [handleEvent, handleContactRequestEnabled]
    (repeat' split) <;> exact h
  | accountContactRequestReferenceReset s =>
    simp only [handleEvent, handleContactRequestReferenceReset]
    (repeat' split) <;> exact h
  | accountContactRequestOutgoingEnqueued c om =>
    simp only [handleEvent, handleContactRequestOutgoingEnqueued, registerContactFromGroupPK]
    (repeat' split) <;> exact h
  | accountContactRequestOutgoingSent q =>
    simp only [handleEvent, handleContactRequestOutgoingSent, registerContactFromGroupPK]
    (repeat' split) <;> exact h
  | accountContactRequestIncomingReceived q a b =>
    simp only [handleEvent, handleContactRequestIncomingReceived, registerContactFromGroupPK]
    (repeat' split) <;> exact h
  | accountContactRequestIncomingDiscarded q =>
    simp only [handleEvent, handleContactRequestIncomingDiscarded, registerContactFromGroupPK]
    (repeat' split) <;> exact h
  | accountContactRequestIncomingAccepted q =>
    simp only [handleEvent, handleContactRequestIncomingAccepted, registerContactFromGroupPK]
    (repeat' split) <;> exact h
  | accountContactBlocked q =>
    simp only [handleEvent, handleContactBlocked, registerContactFromGroupPK]
    (repeat' split) <;> exact h
  | accountContactUnblocked q =>
    simp only [handleEvent, handleContactUnblocked, registerContactFromGroupPK]
    (repeat' split) <;> exact h
  | contactAliasKeyAdded a b => exact h
  | multiMemberGroupInitialMemberAnnounced a =>
    simp only [handleEvent, handleMultiMemberInitialMember]
    (repeat' split) <;> exact h
  | multiMemberGroupAdminRoleGranted => exact h
  | groupMetadataPayloadSent => exact h
  | accountVerifiedCredentialRegistered c => exact h
  | otherEvent t => exact h

theorem tokensWF_stepIdx (s : MetadataStoreIndex) (e : Entry) (h : TokensWF s) :
    TokensWF (stepIdx s e) := by
  unfold stepIdx
  split
  · exact h
  · rcases hd : e.decoded with _ | ev
    · exact h
    · show TokensWF (markHandled (handleEvent s ev).1 e.hash)
      exact tokensWF_handleEvent s ev h

theorem tokensWF_foldl (L : List Entry) (s : MetadataStoreIndex) (h : TokensWF s) :
    TokensWF (L.foldl stepIdx s) := by
  induction L generalizing s with
  | nil => exact h
  | cons e L ih =>
    rw [List.foldl_cons]
    exact ih (stepIdx s e) (tokensWF_stepIdx s e h)

theorem updateIndex_serviceTokens (m : MetadataStoreIndex) (entries : List Entry) :
    (updateIndex m entries).1.serviceTokens =
      (entries.reverse.foldl stepIdx (resetState m)).serviceTokens := by
  rw [updateIndex_fst]
  exact (aliasLoop_preserves _ _).2.2.2.1

/-- C5: a token id that appears in any AccountServiceTokenRemoved event of a
log (with distinct entry hashes) is absent from `listServiceTokens` after
`updateIndex`, no matter where in log order an AccountServiceTokenAdded event
for the same id stands: removal tombstones unconditionally, addition is
ignored when the key is present (tombstones included), and listing skips
tombstones. -/
theorem c5_removed_token_never_listed (m : MetadataStoreIndex) (entries : List Entry) (tid : Nat)
    (hnd : (entries.map Entry.hash).Nodup)
    (hrem : ∃ e ∈ entries, e.decoded = some (.accountServiceTokenRemoved tid)) :
    ∀ t ∈ listServiceTokens (updateIndex m entries).1, t.tokenID ≠ tid := by
  obtain ⟨e, he, hdec⟩ := hrem
  obtain ⟨L1, L2, hsplit⟩ := List.append_of_mem (List.mem_reverse.mpr he)
  have hts : mapLookup (entries.reverse.foldl stepIdx (resetState m)).serviceTokens tid
      = some none := by
    rw [hsplit, List.foldl_append, List.foldl_cons]
    apply tombstone_foldl
    have hfresh : e.hash ∉ (L1.foldl stepIdx (resetState m)).handledEvents := by
      intro hmem
      rcases handled_foldl_sub L1 (resetState m) e.hash hmem with h | h
      · rw [resetState_handled] at h
        exact List.not_mem_nil _ h
      · have hndrev : ((L1 ++ e :: L2).map Entry.hash).Nodup := by
          rw [← hsplit, List.map_reverse]
          exact List.nodup_reverse.mpr hnd
        rw [List.map_append, List.map_cons, List.nodup_append] at hndrev
        exact hndrev.2.2 h (List.mem_cons_self _ _)
    unfold stepIdx
    rw [if_neg (fun hc => hfresh hc.2), hdec]
    show mapLookup (markHandled
        (handleEvent (L1.foldl stepIdx (resetState m)) (.accountServiceTokenRemoved tid)).1
        e.hash).serviceTokens tid = some none
    show mapLookup (mapInsert (L1.foldl stepIdx (resetState m)).serviceTokens tid none) tid
      = some none
    exact mapLookup_insert_self _ _ _
  intro t ht htid
  have hwf : TokensWF (entries.reverse.foldl stepIdx (resetState m)) := by
    apply tokensWF_foldl
    exact ⟨List.nodup_nil, fun p hp => absurd hp (List.not_mem_nil p)⟩
  unfold listServiceTokens at ht
  rw [updateIndex_serviceTokens] at ht
  obtain ⟨p, hp, hpt⟩ := List.mem_filterMap.mp ht
  have hkey : t.tokenID = p.1 := hwf.2 p hp t hpt
  have hp' : (tid, some t) ∈ (entries.reverse.foldl stepIdx (resetState m)).serviceTokens := by
    have : p = (tid, some t) := by
      rcases p with ⟨p1, p2⟩
      simp only [Prod.mk.injEq]
      simp only [] at hkey hpt
      exact ⟨by rw [← hkey, htid], hpt⟩
    rw [← this]
    exact hp
  have := mapLookup_of_mem_nodup hwf.1 hp'
  rw [hts] at this
  exact Option.noConfusion (Option.some.inj this)

/-- Scenario S4 of the spec (oldest first): add token 1, remove token 1,
add token 2. -/
def entriesS4 : List Entry :=
  [ ⟨1, some (.accountServiceTokenAdded ⟨1, 100⟩)⟩,
    ⟨2, some (.accountServiceTokenRemoved 1)⟩,
    ⟨3, some (.accountServiceTokenAdded ⟨2, 200⟩)⟩ ]

/-- Witness for C5 on scenario S4: token 1 is removed in the middle of the
log and never listed again even though (re-)adds surround the removal. -/
theorem c5_removed_token_never_listed_witness :
    (entriesS4.map Entry.hash).Nodup ∧
      ∀ t ∈ listServiceTokens (updateIndex accIdx entriesS4).1, t.tokenID ≠ 1 :=
  ⟨by decide, c5_removed_token_never_listed accIdx entriesS4 1 (by decide)
    ⟨⟨2, some (.accountServiceTokenRemoved 1)⟩, by decide, rfl⟩⟩

/-! ## C2: undecodable entries -/

theorem stepIdx_none (s : MetadataStoreIndex) (h : Nat) :
    stepIdx s ⟨h, none⟩ = s := by
  unfold stepIdx
  split <;> rfl

theorem updateIndex_handled (m : MetadataStoreIndex) (entries : List Entry) :
    (updateIndex m entries).1.handledEvents =
      (entries.reverse.foldl stepIdx (resetState m)).handledEvents := by
  rw [updateIndex_fst]
  exact (aliasLoop_preserves _ _).2.2.2.2.2.2.2.2.1

/-- C2 counterexample: the claim says an entry whose decoding fails has its
hash marked handled; on the log consisting of one undecodable entry with
hash 7 the handled-events set stays empty (the source `continue`s before
marking on decode errors). -/
theorem c2_undecodable_marked_counterexample :
    ¬7 ∈ (updateIndex accIdx [⟨7, none⟩]).1.handledEvents := by decide

/-- C2 amended: an entry whose decoding fails is logged and skipped and the
replay continues to completion — the result equals that of the log without
the entry — but its hash is NOT recorded in the handled-events set (only
entries that decode are marked). -/
theorem c2_undecodable_skipped (m : MetadataStoreIndex) (h : Nat) (l1 l2 : List Entry) :
    updateIndex m (l1 ++ ⟨h, none⟩ :: l2) = updateIndex m (l1 ++ l2) ∧
      (h ∉ (l1 ++ l2).map Entry.hash →
        h ∉ (updateIndex m (l1 ++ ⟨h, none⟩ :: l2)).1.handledEvents) := by
  have hfold : (l1 ++ (⟨h, none⟩ : Entry) :: l2).reverse.foldl stepIdx (resetState m)
      = (l1 ++ l2).reverse.foldl stepIdx (resetState m) := by
    rw [List.reverse_append, List.reverse_cons, List.reverse_append]
    rw [List.foldl_append, List.foldl_append, List.foldl_append]
    simp only [List.foldl_cons, List.foldl_nil]
    rw [stepIdx_none]
  have heq : updateIndex m (l1 ++ ⟨h, none⟩ :: l2) = updateIndex m (l1 ++ l2) := by
    simp only [updateIndex]
    rw [hfold]
  refine ⟨heq, ?_⟩
  intro hni hmem
  rw [heq, updateIndex_handled] at hmem
  rcases handled_foldl_sub _ _ h hmem with h' | h'
  · rw [resetState_handled] at h'
    exact List.not_mem_nil _ h'
  · rw [List.map_reverse] at h'
    exact hni (List.mem_reverse.mp h')

/-- Witness for the amended C2: dropping the undecodable entry from the front
of scenario S2 changes nothing, and hash 7 is never marked handled. -/
theorem c2_undecodable_skipped_witness :
    updateIndex accIdx (⟨7, none⟩ :: entriesS2) = updateIndex accIdx entriesS2 ∧
      7 ∉ (updateIndex accIdx (⟨7, none⟩ :: entriesS2)).1.handledEvents := by
  have h := c2_undecodable_skipped accIdx 7 [] entriesS2
  exact ⟨h.1, h.2 (by decide)⟩

/-! ## C4: the replay resets derived state and only grows the monotonic maps -/

/-- The monotonic-map relation between two index states: device bindings are
preserved with their values, member lists only grow at the tail, and the
admin and secret-sent sets only grow at the tail. -/
def MonoExtends (s s' : MetadataStoreIndex) : Prop :=
  (∀ k v, mapLookup s.devices k = some v → mapLookup s'.devices k = some v) ∧
  (∀ k l, mapLookup s.members k = some l → ∃ l2, mapLookup s'.members k = some (l ++ l2)) ∧
  s.admins <+: s'.admins ∧
  s.sentSecrets <+: s'.sentSecrets

theorem monoExtends_of_eq (s s' : MetadataStoreIndex) (hd : s'.devices = s.devices)
    (hm : s'.members = s.members) (ha : s'.admins = s.admins)
    (hs : s'.sentSecrets = s.sentSecrets) : MonoExtends s s' := by
  refine ⟨?_, ?_, ?_, ?_⟩
  · intro k v h
    rw [hd]
    exact h
  · intro k l h
    refine ⟨[], ?_⟩
    rw [hm, List.append_nil]
    exact h
  · rw [ha]
  · rw [hs]

theorem monoExtends_trans {a b c : MetadataStoreIndex}
    (h1 : MonoExtends a b) (h2 : MonoExtends b c) : MonoExtends a c := by
  refine ⟨fun k v h => h2.1 k v (h1.1 k v h), ?_, h1.2.2.1.trans h2.2.2.1,
    h1.2.2.2.trans h2.2.2.2⟩
  intro k l h
  obtain ⟨l2, hb⟩ := h1.2.1 k l h
  obtain ⟨l3, hc⟩ := h2.2.1 k (l ++ l2) hb
  exact ⟨l2 ++ l3, by rw [hc, List.append_assoc]⟩

theorem monoExtends_handleEvent (m : MetadataStoreIndex) (ev : Event) :
    MonoExtends m (handleEvent m ev).1 := by
  cases ev with
  | groupMemberDeviceAdded memberPK devicePK =>
    simp only [handleEvent, handleGroupMemberDeviceAdded]
    split
    · exact monoExtends_of_eq _ _ rfl rfl rfl rfl
    · split
      · exact monoExtends_of_eq _ _ rfl rfl rfl rfl
      · split
        · exact monoExtends_of_eq _ _ rfl rfl rfl rfl
        · next hns =>
          have hdev : mapLookup m.devices devicePK = none := isSome_false_eq_none hns
          refine ⟨?_, ?_, List.prefix_refl _, List.prefix_refl _⟩
          · intro k v h
            exact mapLookup_insert_preserve _ h hdev
          · intro k l h
            by_cases hk : k = memberPK
            · subst hk
              refine ⟨[⟨k, devicePK⟩], ?_⟩
              show mapLookup (mapInsert m.members k ((mapLookup m.members k).getD [] ++ _)) k = _
              rw [mapLookup_insert_self, h]
              rfl
            · refine ⟨[], ?_⟩
              rw [List.append_nil]
              show mapLookup (mapInsert m.members memberPK _) k = some l
              rw [mapLookup_insert_ne _ _ _ _ (fun he => hk he.symm)]
              exact h
  | groupDeviceChainKeyAdded devicePK destMemberPK =>
    simp only [handleEvent, handleGroupDeviceChainKeyAdded]
    (repeat' split) <;>
      first
      | exact monoExtends_of_eq _ _ rfl rfl rfl rfl
      | · refine ⟨fun k v h => h, fun k l h => ⟨[], by rw [List.append_nil]; exact h⟩,
            List.prefix_refl _, ?_⟩
          show m.sentSecrets <+: setInsert m.sentSecrets destMemberPK
          unfold setInsert
          split
          · exact List.prefix_refl _
          · exact List.prefix_append _ _
  | multiMemberGroupInitialMemberAnnounced a =>
    simp only [handleEvent, handleMultiMemberInitialMember]
    (repeat' split) <;>
      first
      | exact monoExtends_of_eq _ _ rfl rfl rfl rfl
      | exact ⟨fun k v h => h, fun k l h => ⟨[], by rw [List.append_nil]; exact h⟩,
          List.prefix_append _ _, List.prefix_refl _⟩
  | accountGroupJoined g =>
    simp only [handleEvent, handleGroupJoined]
    (repeat' split) <;> exact monoExtends_of_eq _ _ rfl rfl rfl rfl
  | accountGroupLeft g =>
    simp only [handleEvent, handleGroupLeft]
    (repeat' split) <;> exact monoExtends_of_eq _ _ rfl rfl rfl rfl
  | accountContactRequestDisabled =>
    simp only [handleEvent, handleContactRequestDisabled]
    (repeat' split) <;> exact monoExtends_of_eq _ _ rfl rfl rfl rfl
  | accountContactRequestEnabled =>
    simp only [handleEvent, handleContactRequestEnabled]
    (repeat' split) <;> exact monoExtends_of_eq _ _ rfl rfl rfl rfl
  | accountContactRequestReferenceReset s =>
    simp only [handleEvent, handleContactRequestReferenceReset]
    (repeat' split) <;> exact monoExtends_of_eq _ _ rfl rfl rfl rfl
  | accountContactRequestOutgoingEnqueued c om =>
    simp only [handleEvent, handleContactRequestOutgoingEnqueued, registerContactFromGroupPK]
    (repeat' split) <;> exact monoExtends_of_eq _ _ rfl rfl rfl rfl
  | accountContactRequestOutgoingSent q =>
    simp only [handleEvent, handleContactRequestOutgoingSent, registerContactFromGroupPK]
    (repeat' split) <;> exact monoExtends_of_eq _ _ rfl rfl rfl rfl
  | accountContactRequestIncomingReceived q a b =>
    simp only [handleEvent, handleContactRequestIncomingReceived, registerContactFromGroupPK]
    (repeat' split) <;> exact monoExtends_of_eq _ _ rfl rfl rfl rfl
  | accountContactRequestIncomingDiscarded q =>
    simp only [handleEvent, handleContactRequestIncomingDiscarded, registerContactFromGroupPK]
    (repeat' split) <;> exact monoExtends_of_eq _ _ rfl rfl rfl rfl
  | accountContactRequestIncomingAccepted q =>
    simp only [handleEvent, handleContactRequestIncomingAccepted, registerContactFromGroupPK]
    (repeat' split) <;> exact monoExtends_of_eq _ _ rfl rfl rfl rfl
  | accountContactBlocked q =>
    simp only [handleEvent, handleContactBlocked, registerContactFromGroupPK]
    (repeat' split) <;> exact monoExtends_of_eq _ _ rfl rfl rfl rfl
  | accountContactUnblocked q =>
    simp only [handleEvent, handleContactUnblocked, registerContactFromGroupPK]
    (repeat' split) <;> exact monoExtends_of_eq _ _ rfl rfl rfl rfl
  | contactAliasKeyAdded a b =>
    exact monoExtends_of_eq _ _ rfl rfl rfl rfl
  | accountServiceTokenAdded t =>
    simp only [handleEvent, handleAccountServiceTokenAdded]
    (repeat' split) <;> exact monoExtends_of_eq _ _ rfl rfl rfl rfl
  | accountServiceTokenRemoved t =>
    exact monoExtends_of_eq _ _ rfl rfl rfl rfl
  | multiMemberGroupAdminRoleGranted =>
    exact monoExtends_of_eq _ _ rfl rfl rfl rfl
  | groupMetadataPayloadSent =>
    exact monoExtends_of_eq _ _ rfl rfl rfl rfl
  | accountVerifiedCredentialRegistered c =>
    exact monoExtends_of_eq _ _ rfl rfl rfl rfl
  | otherEvent t =>
    exact monoExtends_of_eq _ _ rfl rfl rfl rfl

theorem monoExtends_stepIdx (s : MetadataStoreIndex) (e : Entry) :
    MonoExtends s (stepIdx s e) := by
  unfold stepIdx
  split
  · exact monoExtends_of_eq _ _ rfl rfl rfl rfl
  · rcases e.decoded with _ | ev
    · exact monoExtends_of_eq _ _ rfl rfl rfl rfl
    · exact monoExtends_trans (monoExtends_handleEvent s ev)
        (monoExtends_of_eq _ _ rfl rfl rfl rfl)

theorem monoExtends_foldl (L : List Entry) (s : MetadataStoreIndex) :
    MonoExtends s (L.foldl stepIdx s) := by
  induction L generalizing s with
  | nil => exact monoExtends_of_eq _ _ rfl rfl rfl rfl
  | cons e L ih =>
    rw [List.foldl_cons]
    exact monoExtends_trans (monoExtends_stepIdx s e) (ih (stepIdx s e))

theorem monoExtends_updateIndex (m : MetadataStoreIndex) (entries : List Entry) :
    MonoExtends m (updateIndex m entries).1 := by
  rw [updateIndex_fst]
  have h1 : MonoExtends m (entries.reverse.foldl stepIdx (resetState m)) :=
    monoExtends_trans (monoExtends_of_eq _ _ rfl rfl rfl rfl)
      (monoExtends_foldl entries.reverse (resetState m))
  refine monoExtends_trans h1 (monoExtends_of_eq _ _ ?_ ?_ ?_ ?_)
  · exact (aliasLoop_preserves _ _).2.2.2.2.2.1
  · exact (aliasLoop_preserves _ _).2.2.2.2.1
  · exact (aliasLoop_preserves _ _).2.2.2.2.2.2.1
  · exact (aliasLoop_preserves _ _).2.2.2.2.2.2.2.1

/-- C4: every `updateIndex` call resets the per-replay structures before
folding — the result is independent of the initial values of contacts,
contactsFromGroupPK, groups, serviceTokens, contactRequestMetadata,
contactRequestEnabled, contactRequestSeed, verifiedCredentials and
handledEvents — while the members, devices, admins and sentSecrets maps are
never cleared: every entry present in those four maps before the call is
still present (member lists grow only at the tail) after it. -/
theorem c4_reset_and_monotone (m : MetadataStoreIndex) (entries : List Entry) :
    (∀ c1 c2 c3 c4 c5 c6 c7 c8 c9,
      updateIndex { m with
            contacts := c1
            contactsFromGroupPK := c2
            groups := c3
            serviceTokens := c4
            contactRequestMetadata := c5
            contactRequestEnabled := c6
            contactRequestSeed := c7
            verifiedCredentials := c8
            handledEvents := c9 } entries
        = updateIndex m entries) ∧
    (∀ k v, mapLookup m.devices k = some v →
      mapLookup (updateIndex m entries).1.devices k = some v) ∧
    (∀ k l, mapLookup m.members k = some l →
      ∃ l2, mapLookup (updateIndex m entries).1.members k = some (l ++ l2)) ∧
    m.admins <+: (updateIndex m entries).1.admins ∧
    m.sentSecrets <+: (updateIndex m entries).1.sentSecrets := by
  refine ⟨?_, (monoExtends_updateIndex m entries).1, (monoExtends_updateIndex m entries).2.1,
    (monoExtends_updateIndex m entries).2.2.1, (monoExtends_updateIndex m entries).2.2.2⟩
  intro c1 c2 c3 c4 c5 c6 c7 c8 c9
  simp only [updateIndex]
  rfl

/-- An index whose monotonic maps are populated, for the C4 witness. -/
def popIdx : MetadataStoreIndex :=
  { accIdx with
      members := [(keyB, [⟨keyB, keyDB⟩])],
      devices := [(keyDB, ⟨keyB, keyDB⟩)],
      admins := [(0, keyB)],
      adminPtrCtr := 1,
      sentSecrets := [keyB] }

/-- Witness for C4: a pre-populated device binding, member list, admin entry
and sent-secret entry all survive a replay of scenario S2. -/
theorem c4_reset_and_monotone_witness :
    mapLookup (updateIndex popIdx entriesS2).1.devices keyDB = some ⟨keyB, keyDB⟩ ∧
      (∃ l2, mapLookup (updateIndex popIdx entriesS2).1.members keyB
        = some ([⟨keyB, keyDB⟩] ++ l2)) ∧
      [(0, keyB)] <+: (updateIndex popIdx entriesS2).1.admins ∧
      [keyB] <+: (updateIndex popIdx entriesS2).1.sentSecrets :=
  ⟨(c4_reset_and_monotone popIdx entriesS2).2.1 keyDB ⟨keyB, keyDB⟩ (by decide),
    (c4_reset_and_monotone popIdx entriesS2).2.2.1 keyB [⟨keyB, keyDB⟩] (by decide),
    (c4_reset_and_monotone popIdx entriesS2).2.2.2.1,
    (c4_reset_and_monotone popIdx entriesS2).2.2.2.2⟩

/-! ## C8: member/device registry invariants -/

/-- Apply a sequence of GroupMemberDeviceAdded events through the handler. -/
def applyDeviceEvents (m : MetadataStoreIndex) (evs : List (Bytes × Bytes)) :
    MetadataStoreIndex :=
  evs.foldl (fun s p => (s.handleGroupMemberDeviceAdded (.groupMemberDeviceAdded p.1 p.2)).1) m

/-- The registry invariant: member lists bind their own key, every listed
binding is registered in `devices`, and every registered binding sits in its
member's list under its own device key. -/
def RegistryInv (m : MetadataStoreIndex) : Prop :=
  (∀ k l, mapLookup m.members k = some l → ∀ b ∈ l, b.member = k) ∧
  (∀ k l b, mapLookup m.members k = some l → b ∈ l →
    mapLookup m.devices b.device = some b) ∧
  (∀ dk b, mapLookup m.devices dk = some b →
    b.device = dk ∧ ∃ l, mapLookup m.members b.member = some l ∧ b ∈ l)

theorem registryInv_step (m : MetadataStoreIndex) (mk dk : Bytes) (h : RegistryInv m) :
    RegistryInv (m.handleGroupMemberDeviceAdded (.groupMemberDeviceAdded mk dk)).1 := by
  simp only [handleGroupMemberDeviceAdded]
  split
  · exact h
  · split
    · exact h
    · split
      · exact h
      · next hns =>
        have hdev : mapLookup m.devices dk = none := isSome_false_eq_none hns
        set b0 : MemberDevice := ⟨mk, dk⟩ with hb0
        set old : List MemberDevice := (mapLookup m.members mk).getD [] with hold
        have holdmem : ∀ b ∈ old, b.member = mk := by
          intro b hb
          rcases hm : mapLookup m.members mk with _ | l0
          · rw [hold, hm] at hb
            cases hb
          · rw [hold, hm] at hb
            exact h.1 mk l0 hm b hb
        have holddev : ∀ b ∈ old, mapLookup m.devices b.device = some b := by
          intro b hb
          rcases hm : mapLookup m.members mk with _ | l0
          · rw [hold, hm] at hb
            cases hb
          · rw [hold, hm] at hb
            exact h.2.1 mk l0 b hm hb
        refine ⟨?_, ?_, ?_⟩
        · intro k l hl b hb
          by_cases hk : k = mk
          · subst hk
            rw [show mapLookup (mapInsert m.members k (old ++ [b0])) k = some (old ++ [b0])
                from mapLookup_insert_self _ _ _] at hl
            cases hl
            rcases List.mem_append.mp hb with hb | hb
            · exact holdmem b hb
            · rw [List.mem_singleton.mp hb]
          · rw [mapLookup_insert_ne _ _ _ _ (fun he => hk he.symm)] at hl
            exact h.1 k l hl b hb
        · intro k l b hl hb
          have hbd : b ∈ old ++ [b0] ∨ (mapLookup m.members k = some l ∧ b ∈ l) := by
            by_cases hk : k = mk
            · subst hk
              rw [mapLookup_insert_self] at hl
              cases hl
              exact Or.inl hb
            · rw [mapLookup_insert_ne _ _ _ _ (fun he => hk he.symm)] at hl
              exact Or.inr ⟨hl, hb⟩
          rcases hbd with hb' | ⟨hl', hb'⟩
          · rcases List.mem_append.mp hb' with hb'' | hb''
            · have hbdk : b.device ≠ dk := by
                intro he
                rw [← he] at hdev
                rw [holddev b hb''] at hdev
                exact Option.noConfusion hdev
              rw [mapLookup_insert_ne _ _ _ _ (fun he => hbdk he.symm)]
              exact holddev b hb''
            · rw [List.mem_singleton.mp hb'']
              exact mapLookup_insert_self _ _ _
          · have hdb := h.2.1 k l b hl' hb'
            have hbdk : b.device ≠ dk := by
              intro he
              rw [← he] at hdev
              rw [hdb] at hdev
              exact Option.noConfusion hdev
            rw [mapLookup_insert_ne _ _ _ _ (fun he => hbdk he.symm)]
            exact hdb
        · intro dk' b hl
          by_cases hk : dk' = dk
          · subst hk
            rw [mapLookup_insert_self] at hl
            obtain rfl : b0 = b := Option.some.inj hl
            refine ⟨rfl, old ++ [b0], ?_, List.mem_append.mpr (Or.inr (List.mem_singleton.mpr rfl))⟩
            show mapLookup (mapInsert m.members mk (old ++ [b0])) mk = _
            exact mapLookup_insert_self _ _ _
          · rw [mapLookup_insert_ne _ _ _ _ (fun he => hk he.symm)] at hl
            obtain ⟨hbd, l0, hl0, hbl0⟩ := h.2.2 dk' b hl
            refine ⟨hbd, ?_⟩
            by_cases hbm : b.member = mk
            · rw [hbm]
              rw [hbm] at hl0
              refine ⟨old ++ [b0], mapLookup_insert_self _ _ _, ?_⟩
              rw [hold, hl0]
              exact List.mem_append.mpr (Or.inl hbl0)
            · refine ⟨l0, ?_, hbl0⟩
              rw [mapLookup_insert_ne _ _ _ _ (fun he => hbm he.symm)]
              exact hl0

theorem registryInv_applyDeviceEvents (evs : List (Bytes × Bytes)) (m : MetadataStoreIndex)
    (h : RegistryInv m) : RegistryInv (applyDeviceEvents m evs) := by
  induction evs generalizing m with
  | nil => exact h
  | cons p evs ih =>
    exact ih _ (registryInv_step m p.1 p.2 h)

/-- C8: starting from empty registries, after every sequence of
GroupMemberDeviceAdded events: every binding in `members[k]` has member key
`k`; the `devices` map holds exactly the bindings appended to member lists
(both inclusions); a device key appears in exactly one member's list; the
handler is a no-op when the device is already registered (valid keys), and
fails with a deserialization error when either key is not 32 bytes. -/
theorem c8_registry_invariants (evs : List (Bytes × Bytes)) (m : MetadataStoreIndex)
    (hm : m.members = []) (hd : m.devices = []) :
    ((∀ k l, mapLookup (applyDeviceEvents m evs).members k = some l → ∀ b ∈ l, b.member = k) ∧
     (∀ k l b, mapLookup (applyDeviceEvents m evs).members k = some l → b ∈ l →
       mapLookup (applyDeviceEvents m evs).devices b.device = some b) ∧
     (∀ dk b, mapLookup (applyDeviceEvents m evs).devices dk = some b →
       b.device = dk ∧ ∃ l, mapLookup (applyDeviceEvents m evs).members b.member = some l ∧ b ∈ l) ∧
     (∀ k1 l1 k2 l2 b1 b2, mapLookup (applyDeviceEvents m evs).members k1 = some l1 →
       mapLookup (applyDeviceEvents m evs).members k2 = some l2 →
       b1 ∈ l1 → b2 ∈ l2 → b1.device = b2.device → k1 = k2)) ∧
    (∀ (s : MetadataStoreIndex) (mk dk : Bytes), mk.length = keySize → dk.length = keySize →
      (mapLookup s.devices dk).isSome →
      s.handleGroupMemberDeviceAdded (.groupMemberDeviceAdded mk dk) = (s, none)) ∧
    (∀ (s : MetadataStoreIndex) (mk dk : Bytes), mk.length ≠ keySize ∨ dk.length ≠ keySize →
      s.handleGroupMemberDeviceAdded (.groupMemberDeviceAdded mk dk)
        = (s, some .deserialization)) := by
  have hinv : RegistryInv (applyDeviceEvents m evs) := by
    apply registryInv_applyDeviceEvents
    refine ⟨?_, ?_, ?_⟩
    · intro k l hl
      rw [hm] at hl
      exact absurd hl (by simp)
    · intro k l b hl
      rw [hm] at hl
      exact absurd hl (by simp)
    · intro dk' b hl
      rw [hd] at hl
      exact absurd hl (by simp)
  refine ⟨⟨hinv.1, hinv.2.1, hinv.2.2, ?_⟩, ?_, ?_⟩
  · intro k1 l1 k2 l2 b1 b2 h1 h2 hb1 hb2 hdev
    have e1 := hinv.2.1 k1 l1 b1 h1 hb1
    have e2 := hinv.2.1 k2 l2 b2 h2 hb2
    rw [hdev] at e1
    rw [e1] at e2
    have hb12 : b1 = b2 := Option.some.inj e2
    rw [← hinv.1 k1 l1 h1 b1 hb1, ← hinv.1 k2 l2 h2 b2 hb2, hb12]
  · intro s mk dk h1 h2 h3
    simp only [handleGroupMemberDeviceAdded]
    rw [if_neg (by rw [h1]; exact fun hc => hc rfl),
      if_neg (by rw [h2]; exact fun hc => hc rfl), if_pos h3]
  · intro s mk dk hor
    simp only [handleGroupMemberDeviceAdded]
    rcases hor with h1 | h2
    · rw [if_pos h1]
    · by_cases h1 : mk.length ≠ keySize
      · rw [if_pos h1]
      · rw [if_neg h1, if_pos h2]

/-- Witness for C8: one device-added event registers the binding and places
it in its member's list. -/
theorem c8_registry_invariants_witness :
    (⟨keyA, keyDA⟩ : MemberDevice).device = keyDA ∧
      ∃ l, mapLookup (applyDeviceEvents accIdx [(keyA, keyDA)]).members keyA = some l ∧
        (⟨keyA, keyDA⟩ : MemberDevice) ∈ l :=
  (c8_registry_invariants [(keyA, keyDA)] accIdx rfl rfl).1.2.2.1 keyDA ⟨keyA, keyDA⟩ (by decide)

/-! ## C10: record creation is not atomic with the registration error -/

/-- The conditions under which `registerContactFromGroupPK` fails: wrong
group type, an unparsable contact key, or a failing secret-store lookup. -/
def registerFails (m : MetadataStoreIndex) (pk : Bytes) : Prop :=
  m.group.groupType ≠ .account ∨ pk.length ≠ keySize ∨ m.secretStore pk = none

theorem registerContact_fails (m : MetadataStoreIndex) (ac : AccountContact)
    (h : registerFails m ac.contact.pk) :
    ∃ e, m.registerContactFromGroupPK ac = (m, some e) ∧
      (m.group.groupType ≠ .account → e = .groupInvalidType) := by
  unfold registerContactFromGroupPK
  by_cases h1 : m.group.groupType ≠ .account
  · rw [if_pos h1]
    exact ⟨.groupInvalidType, rfl, fun _ => rfl⟩
  · rw [if_neg h1]
    rcases h with h | h | h
    · exact absurd h h1
    · rw [if_pos h]
      exact ⟨.deserialization, rfl, fun hc => absurd hc h1⟩
    · by_cases h2 : ac.contact.pk.length ≠ keySize
      · rw [if_pos h2]
        exact ⟨.deserialization, rfl, fun hc => absurd hc h1⟩
      · rw [if_neg h2, h]
        exact ⟨.orbitDBOpen, rfl, fun hc => absurd hc h1⟩

theorem getContact_eq (m : MetadataStoreIndex) (pk : Bytes) (ac : AccountContact)
    (h : mapLookup m.contacts pk = some ac) : getContact m pk = .ok ac := by
  unfold getContact
  rw [h]

theorem mem_listContacts_of_lookup (m : MetadataStoreIndex) (pk : Bytes) (ac : AccountContact)
    (h : mapLookup m.contacts pk = some ac) : (pk, ac) ∈ listContacts m :=
  List.mem_map.mpr ⟨(pk, ac), mapLookup_some_mem h, rfl⟩

theorem c10_core (m : MetadataStoreIndex) (res : MetadataStoreIndex × Option Err)
    (pk : Bytes) (ac : AccountContact) (crm : List (Bytes × Bytes))
    (hres : res = ({ m with
        contactRequestMetadata := crm
        contacts := mapInsert m.contacts pk ac }).registerContactFromGroupPK ac)
    (hac : ac.contact.pk = pk)
    (hfail : registerFails m pk) :
    (∃ e, res.2 = some e ∧ (m.group.groupType ≠ .account → e = .groupInvalidType)) ∧
      mapLookup res.1.contacts pk = some ac ∧
      getContact res.1 pk = .ok ac ∧
      (pk, ac) ∈ listContacts res.1 ∧
      res.1.contactsFromGroupPK = m.contactsFromGroupPK := by
  have hfail' : registerFails { m with
      contactRequestMetadata := crm
      contacts := mapInsert m.contacts pk ac } ac.contact.pk := by
    rw [hac]
    exact hfail
  obtain ⟨e, hreg, himp⟩ := registerContact_fails _ ac hfail'
  rw [hres, hreg]
  refine ⟨⟨e, rfl, himp⟩, mapLookup_insert_self _ _ _,
    getContact_eq _ _ _ (mapLookup_insert_self _ _ _),
    mem_listContacts_of_lookup _ _ _ (mapLookup_insert_self _ _ _), rfl⟩

/-- C10: a contact-request event that creates a new record while the
registration step is bound to fail (non-Account group, or unparsable key, or
failing secret-store lookup) leaves the handler with an error —
group-invalid-type in the non-Account case — yet the record was already
inserted in the event's induced state and stays: it is visible through
`getContact` and `listContacts`, while the reverse index by derived group PK
is untouched. -/
theorem c10_creation_error_partial (m : MetadataStoreIndex) (ev : Event)
    (pk : Bytes) (st : ContactState)
    (hind : inducedContactState ev = some (pk, st))
    (habs : mapLookup m.contacts pk = none)
    (hfail : registerFails m pk) :
    (∃ e, (handleEvent m ev).2 = some e ∧
      (m.group.groupType ≠ .account → e = .groupInvalidType)) ∧
      ∃ ac : AccountContact, ac.state = st ∧
        mapLookup (handleEvent m ev).1.contacts pk = some ac ∧
        getContact (handleEvent m ev).1 pk = .ok ac ∧
        (pk, ac) ∈ listContacts (handleEvent m ev).1 ∧
        (handleEvent m ev).1.contactsFromGroupPK = m.contactsFromGroupPK := by
  cases ev with
  | accountContactRequestOutgoingEnqueued contact om =>
    rcases contact with _ | c
    · simp [inducedContactState] at hind
    · simp only [inducedContactState, Option.map_some] at hind
      have hq : c.pk = pk := congrArg Prod.fst (Option.some.inj hind)
      have hst : ContactState.toRequest = st := congrArg Prod.snd (Option.some.inj hind)
      subst hq
      subst hst
      have hstep' : m.handleContactRequestOutgoingEnqueued
          (.accountContactRequestOutgoingEnqueued (some c) om)
          = ({ m with
                contactRequestMetadata :=
                  match mapLookup m.contactRequestMetadata c.pk with
                  | none => mapInsert m.contactRequestMetadata c.pk om
                  | some data =>
                    if data.length = 0 then mapInsert m.contactRequestMetadata c.pk om
                    else m.contactRequestMetadata
                contacts := mapInsert m.contacts c.pk
                  ⟨.toRequest, ⟨c.pk, c.publicRendezvousSeed, c.metadata⟩⟩ }).registerContactFromGroupPK
              ⟨.toRequest, ⟨c.pk, c.publicRendezvousSeed, c.metadata⟩⟩ := by
        simp only [handleContactRequestOutgoingEnqueued]
        rw [habs]
      have hstep : handleEvent m (.accountContactRequestOutgoingEnqueued (some c) om)
          = ({ m with
                contactRequestMetadata :=
                  match mapLookup m.contactRequestMetadata c.pk with
                  | none => mapInsert m.contactRequestMetadata c.pk om
                  | some data =>
                    if data.length = 0 then mapInsert m.contactRequestMetadata c.pk om
                    else m.contactRequestMetadata
                contacts := mapInsert m.contacts c.pk
                  ⟨.toRequest, ⟨c.pk, c.publicRendezvousSeed, c.metadata⟩⟩ }).registerContactFromGroupPK
              ⟨.toRequest, ⟨c.pk, c.publicRendezvousSeed, c.metadata⟩⟩ := hstep'
      have hcore := c10_core m _ c.pk ⟨.toRequest, ⟨c.pk, c.publicRendezvousSeed, c.metadata⟩⟩
        _ hstep rfl hfail
      exact ⟨hcore.1, ⟨.toRequest, ⟨c.pk, c.publicRendezvousSeed, c.metadata⟩⟩, rfl,
        hcore.2.1, hcore.2.2.1, hcore.2.2.2.1, hcore.2.2.2.2⟩
  | accountContactRequestOutgoingSent q =>
    simp only [inducedContactState] at hind
    have hq : q = pk := congrArg Prod.fst (Option.some.inj hind)
    have hst : ContactState.added = st := congrArg Prod.snd (Option.some.inj hind)
    subst hq
    subst hst
    have hstep' : m.handleContactRequestOutgoingSent (.accountContactRequestOutgoingSent q)
        = ({ m with
              contactRequestMetadata := m.contactRequestMetadata
              contacts := mapInsert m.contacts q
                ⟨.added, ⟨q, none, none⟩⟩ }).registerContactFromGroupPK
            ⟨.added, ⟨q, none, none⟩⟩ := by
      simp only [handleContactRequestOutgoingSent]
      rw [habs]
    have hstep : handleEvent m (.accountContactRequestOutgoingSent q)
        = ({ m with
              contactRequestMetadata := m.contactRequestMetadata
              contacts := mapInsert m.contacts q
                ⟨.added, ⟨q, none, none⟩⟩ }).registerContactFromGroupPK
            ⟨.added, ⟨q, none, none⟩⟩ := hstep'
    have hcore := c10_core m _ q ⟨.added, ⟨q, none, none⟩⟩ _ hstep rfl hfail
    exact ⟨hcore.1, ⟨.added, ⟨q, none, none⟩⟩, rfl,
      hcore.2.1, hcore.2.2.1, hcore.2.2.2.1, hcore.2.2.2.2⟩
  | accountContactRequestIncomingReceived q md sd =>
    simp only [inducedContactState] at hind
    have hq : q = pk := congrArg Prod.fst (Option.some.inj hind)
    have hst : ContactState.received = st := congrArg Prod.snd (Option.some.inj hind)
    subst hq
    subst hst
    have hstep' : m.handleContactRequestIncomingReceived (.accountContactRequestIncomingReceived q md sd)
        = ({ m with
              contactRequestMetadata := m.contactRequestMetadata
              contacts := mapInsert m.contacts q
                ⟨.received, ⟨q, sd, md⟩⟩ }).registerContactFromGroupPK
            ⟨.received, ⟨q, sd, md⟩⟩ := by
      simp only [handleContactRequestIncomingReceived]
      rw [habs]
    have hstep : handleEvent m (.accountContactRequestIncomingReceived q md sd)
        = ({ m with
              contactRequestMetadata := m.contactRequestMetadata
              contacts := mapInsert m.contacts q
                ⟨.received, ⟨q, sd, md⟩⟩ }).registerContactFromGroupPK
            ⟨.received, ⟨q, sd, md⟩⟩ := hstep'
    have hcore := c10_core m _ q ⟨.received, ⟨q, sd, md⟩⟩ _ hstep rfl hfail
    exact ⟨hcore.1, ⟨.received, ⟨q, sd, md⟩⟩, rfl,
      hcore.2.1, hcore.2.2.1, hcore.2.2.2.1, hcore.2.2.2.2⟩
  | accountContactRequestIncomingDiscarded q =>
    simp only [inducedContactState] at hind
    have hq : q = pk := congrArg Prod.fst (Option.some.inj hind)
    have hst : ContactState.discarded = st := congrArg Prod.snd (Option.some.inj hind)
    subst hq
    subst hst
    have hstep' : m.handleContactRequestIncomingDiscarded (.accountContactRequestIncomingDiscarded q)
        = ({ m with
              contactRequestMetadata := m.contactRequestMetadata
              contacts := mapInsert m.contacts q
                ⟨.discarded, ⟨q, none, none⟩⟩ }).registerContactFromGroupPK
            ⟨.discarded, ⟨q, none, none⟩⟩ := by
      simp only [handleContactRequestIncomingDiscarded]
      rw [habs]
    have hstep : handleEvent m (.accountContactRequestIncomingDiscarded q)
        = ({ m with
              contactRequestMetadata := m.contactRequestMetadata
              contacts := mapInsert m.contacts q
                ⟨.discarded, ⟨q, none, none⟩⟩ }).registerContactFromGroupPK
            ⟨.discarded, ⟨q, none, none⟩⟩ := hstep'
    have hcore := c10_core m _ q ⟨.discarded, ⟨q, none, none⟩⟩ _ hstep rfl hfail
    exact ⟨hcore.1, ⟨.discarded, ⟨q, none, none⟩⟩, rfl,
      hcore.2.1, hcore.2.2.1, hcore.2.2.2.1, hcore.2.2.2.2⟩
  | accountContactRequestIncomingAccepted q =>
    simp only [inducedContactState] at hind
    have hq : q = pk := congrArg Prod.fst (Option.some.inj hind)
    have hst : ContactState.added = st := congrArg Prod.snd (Option.some.inj hind)
    subst hq
    subst hst
    have hstep' : m.handleContactRequestIncomingAccepted (.accountContactRequestIncomingAccepted q)
        = ({ m with
              contactRequestMetadata := m.contactRequestMetadata
              contacts := mapInsert m.contacts q
                ⟨.added, ⟨q, none, none⟩⟩ }).registerContactFromGroupPK
            ⟨.added, ⟨q, none, none⟩⟩ := by
      simp only [handleContactRequestIncomingAccepted]
      rw [habs]
    have hstep : handleEvent m (.accountContactRequestIncomingAccepted q)
        = ({ m with
              contactRequestMetadata := m.contactRequestMetadata
              contacts := mapInsert m.contacts q
                ⟨.added, ⟨q, none, none⟩⟩ }).registerContactFromGroupPK
            ⟨.added, ⟨q, none, none⟩⟩ := hstep'
    have hcore := c10_core m _ q ⟨.added, ⟨q, none, none⟩⟩ _ hstep rfl hfail
    exact ⟨hcore.1, ⟨.added, ⟨q, none, none⟩⟩, rfl,
      hcore.2.1, hcore.2.2.1, hcore.2.2.2.1, hcore.2.2.2.2⟩
  | accountContactBlocked q =>
    simp only [inducedContactState] at hind
    have hq : q = pk := congrArg Prod.fst (Option.some.inj hind)
    have hst : ContactState.blocked = st := congrArg Prod.snd (Option.some.inj hind)
    subst hq
    subst hst
    have hstep' : m.handleContactBlocked (.accountContactBlocked q)
        = ({ m with
              contactRequestMetadata := m.contactRequestMetadata
              contacts := mapInsert m.contacts q
                ⟨.blocked, ⟨q, none, none⟩⟩ }).registerContactFromGroupPK
            ⟨.blocked, ⟨q, none, none⟩⟩ := by
      simp only [handleContactBlocked]
      rw [habs]
    have hstep : handleEvent m (.accountContactBlocked q)
        = ({ m with
              contactRequestMetadata := m.contactRequestMetadata
              contacts := mapInsert m.contacts q
                ⟨.blocked, ⟨q, none, none⟩⟩ }).registerContactFromGroupPK
            ⟨.blocked, ⟨q, none, none⟩⟩ := hstep'
    have hcore := c10_core m _ q ⟨.blocked, ⟨q, none, none⟩⟩ _ hstep rfl hfail
    exact ⟨hcore.1, ⟨.blocked, ⟨q, none, none⟩⟩, rfl,
      hcore.2.1, hcore.2.2.1, hcore.2.2.2.1, hcore.2.2.2.2⟩
  | accountContactUnblocked q =>
    simp only [inducedContactState] at hind
    have hq : q = pk := congrArg Prod.fst (Option.some.inj hind)
    have hst : ContactState.removed = st := congrArg Prod.snd (Option.some.inj hind)
    subst hq
    subst hst
    have hstep' : m.handleContactUnblocked (.accountContactUnblocked q)
        = ({ m with
              contactRequestMetadata := m.contactRequestMetadata
              contacts := mapInsert m.contacts q
                ⟨.removed, ⟨q, none, none⟩⟩ }).registerContactFromGroupPK
            ⟨.removed, ⟨q, none, none⟩⟩ := by
      simp only [handleContactUnblocked]
      rw [habs]
    have hstep : handleEvent m (.accountContactUnblocked q)
        = ({ m with
              contactRequestMetadata := m.contactRequestMetadata
              contacts := mapInsert m.contacts q
                ⟨.removed, ⟨q, none, none⟩⟩ }).registerContactFromGroupPK
            ⟨.removed, ⟨q, none, none⟩⟩ := hstep'
    have hcore := c10_core m _ q ⟨.removed, ⟨q, none, none⟩⟩ _ hstep rfl hfail
    exact ⟨hcore.1, ⟨.removed, ⟨q, none, none⟩⟩, rfl,
      hcore.2.1, hcore.2.2.1, hcore.2.2.2.1, hcore.2.2.2.2⟩
  | groupMemberDeviceAdded a b => simp [inducedContactState] at hind
  | groupDeviceChainKeyAdded a b => simp [inducedContactState] at hind
  | accountGroupJoined g => simp [inducedContactState] at hind
  | accountGroupLeft g => simp [inducedContactState] at hind
  | accountContactRequestDisabled => simp [inducedContactState] at hind
  | accountContactRequestEnabled => simp [inducedContactState] at hind
  | accountContactRequestReferenceReset s => simp [inducedContactState] at hind
  | contactAliasKeyAdded a b => simp [inducedContactState] at hind
  | accountServiceTokenAdded t => simp [inducedContactState] at hind
  | accountServiceTokenRemoved t => simp [inducedContactState] at hind
  | multiMemberGroupInitialMemberAnnounced a => simp [inducedContactState] at hind
  | multiMemberGroupAdminRoleGranted => simp [inducedContactState] at hind
  | groupMetadataPayloadSent => simp [inducedContactState] at hind
  | accountVerifiedCredentialRegistered c => simp [inducedContactState] at hind
  | otherEvent t => simp [inducedContactState] at hind

/-- Witness for C10: an outgoing-sent event in a Contact-type group errors
with group-invalid-type, yet the record is created and visible. -/
theorem c10_creation_error_partial_witness :
    (∃ e, (handleEvent ctIdx (.accountContactRequestOutgoingSent keyC)).2 = some e ∧
      (ctIdx.group.groupType ≠ .account → e = .groupInvalidType)) ∧
      ∃ ac : AccountContact, ac.state = .added ∧
        mapLookup (handleEvent ctIdx (.accountContactRequestOutgoingSent keyC)).1.contacts keyC
          = some ac ∧
        getContact (handleEvent ctIdx (.accountContactRequestOutgoingSent keyC)).1 keyC
          = .ok ac ∧
        (keyC, ac) ∈ listContacts (handleEvent ctIdx (.accountContactRequestOutgoingSent keyC)).1 ∧
        (handleEvent ctIdx (.accountContactRequestOutgoingSent keyC)).1.contactsFromGroupPK
          = ctIdx.contactsFromGroupPK :=
  c10_creation_error_partial ctIdx (.accountContactRequestOutgoingSent keyC) keyC .added
    rfl (by decide) (Or.inl (by decide))

/-! ## C7: the alias-key post-action -/

/-- The alias staging contribution of one dispatched event. -/
def aliasExtract : Event → List (Bytes × Bytes)
  | .contactAliasKeyAdded devicePK aliasPK => [(devicePK, aliasPK)]
  | _ => []

/-- The alias staging contribution of one log entry. -/
def entryAlias (e : Entry) : List (Bytes × Bytes) :=
  match e.decoded with
  | some ev => aliasExtract ev
  | none => []

/-- The staged alias events of a full newest-first replay, in processing
order. -/
def stagedAliases (entries : List Entry) : List (Bytes × Bytes) :=
  entries.reverse.flatMap entryAlias

theorem queue_handleEvent (m : MetadataStoreIndex) (ev : Event) :
    (handleEvent m ev).1.eventsContactAddAliasKey
      = m.eventsContactAddAliasKey ++ aliasExtract ev := by
  cases ev with
  | contactAliasKeyAdded a b => rfl
  | groupMemberDeviceAdded a b =>
    simp only [handleEvent, handleGroupMemberDeviceAdded, aliasExtract]
    (repeat' split) <;> simp
  | groupDeviceChainKeyAdded a b =>
    simp only [handleEvent, handleGroupDeviceChainKeyAdded, aliasExtract]
    (repeat' split) <;> simp
  | accountGroupJoined g =>
    simp only [handleEvent, handleGroupJoined, aliasExtract]
    (repeat' split) <;> simp
  | accountGroupLeft g =>
    simp only [handleEvent, handleGroupLeft, aliasExtract]
    (repeat' split) <;> simp
  | accountContactRequestDisabled =>
    simp only [handleEvent, handleContactRequestDisabled, aliasExtract]
    (repeat' split) <;> simp
  | accountContactRequestEnabled =>
    simp only [handleEvent, handleContactRequestEnabled, aliasExtract]
    (repeat' split) <;> simp
  | accountContactRequestReferenceReset s =>
    simp only [handleEvent, handleContactRequestReferenceReset, aliasExtract]
    (repeat' split) <;> simp
  | accountContactRequestOutgoingEnqueued c om =>
    simp only [handleEvent, handleContactRequestOutgoingEnqueued, registerContactFromGroupPK,
      aliasExtract]
    (repeat' split) <;> simp
  | accountContactRequestOutgoingSent q =>
    simp only [handleEvent, handleContactRequestOutgoingSent, registerContactFromGroupPK,
      aliasExtract]
    (repeat' split) <;> simp
  | accountContactRequestIncomingReceived q a b =>
    simp only [handleEvent, handleContactRequestIncomingReceived, registerContactFromGroupPK,
      aliasExtract]
    (repeat' split) <;> simp
  | accountContactRequestIncomingDiscarded q =>
    simp only [handleEvent, handleContactRequestIncomingDiscarded, registerContactFromGroupPK,
      aliasExtract]
    (repeat' split) <;> simp
  | accountContactRequestIncomingAccepted q =>
    simp only [handleEvent, handleContactRequestIncomingAccepted, registerContactFromGroupPK,
      aliasExtract]
    (repeat' split) <;> simp
  | accountContactBlocked q =>
    simp only [handleEvent, handleContactBlocked, registerContactFromGroupPK, aliasExtract]
    (repeat' split) <;> simp
  | accountContactUnblocked q =>
    simp only [handleEvent, handleContactUnblocked, registerContactFromGroupPK, aliasExtract]
    (repeat' split) <;> simp
  | accountServiceTokenAdded t =>
    simp only [handleEvent, handleAccountServiceTokenAdded, aliasExtract]
    (repeat' split) <;> simp
  | accountServiceTokenRemoved t =>
    simp [handleEvent, handleAccountServiceTokenRemoved, aliasExtract]
  | multiMemberGroupInitialMemberAnnounced a =>
    simp only [handleEvent, handleMultiMemberInitialMember, aliasExtract]
    (repeat' split) <;> simp
  | multiMemberGroupAdminRoleGranted =>
    simp [handleEvent, handleMultiMemberGrantAdminRole, aliasExtract]
  | groupMetadataPayloadSent =>
    simp [handleEvent, handleGroupMetadataPayloadSent, aliasExtract]
  | accountVerifiedCredentialRegistered c =>
    simp [handleEvent, handleAccountVerifiedCredentialRegistered, aliasExtract]
  | otherEvent t =>
    simp [handleEvent, aliasExtract]

theorem queue_stepIdx (s : MetadataStoreIndex) (e : Entry)
    (h : ¬(s.group.groupType ≠ .account ∧ e.hash ∈ s.handledEvents)) :
    (stepIdx s e).eventsContactAddAliasKey
      = s.eventsContactAddAliasKey ++ entryAlias e := by
  unfold stepIdx
  rw [if_neg h]
  rcases hd : e.decoded with _ | ev
  · simp [entryAlias, hd]
  · show (markHandled (handleEvent s ev).1 e.hash).eventsContactAddAliasKey = _
    have : (markHandled (handleEvent s ev).1 e.hash).eventsContactAddAliasKey
        = (handleEvent s ev).1.eventsContactAddAliasKey := rfl
    rw [this, queue_handleEvent]
    unfold entryAlias
    rw [hd]

theorem queue_foldl (L : List Entry) (s : MetadataStoreIndex)
    (hnd : (L.map Entry.hash).Nodup) (hfresh : ∀ e ∈ L, e.hash ∉ s.handledEvents) :
    (L.foldl stepIdx s).eventsContactAddAliasKey
      = s.eventsContactAddAliasKey ++ L.flatMap entryAlias := by
  induction L generalizing s with
  | nil => simp
  | cons e L ih =>
    have hskip : ¬(s.group.groupType ≠ .account ∧ e.hash ∈ s.handledEvents) := by
      intro h
      exact hfresh e (List.mem_cons_self _ _) h.2
    have hnd' : (L.map Entry.hash).Nodup := by
      simp only [List.map_cons, List.nodup_cons] at hnd
      exact hnd.2
    have hhead : e.hash ∉ L.map Entry.hash := by
      simp only [List.map_cons, List.nodup_cons] at hnd
      exact hnd.1
    have hfresh' : ∀ e' ∈ L, e'.hash ∉ (stepIdx s e).handledEvents := by
      intro e' he' hmem
      rcases handled_stepIdx_sub s e e'.hash hmem with h | h
      · exact hhead (h ▸ List.mem_map_of_mem Entry.hash he')
      · exact hfresh e' (List.mem_cons_of_mem _ he') h
    rw [List.foldl_cons, ih (stepIdx s e) hnd' hfresh', queue_stepIdx s e hskip,
      List.flatMap_cons, List.append_assoc]

/-- The alias fields and the own binding are untouched by dispatch. -/
theorem aliasFields_handleEvent (m : MetadataStoreIndex) (ev : Event) :
    (handleEvent m ev).1.ownAliasKeySent = m.ownAliasKeySent ∧
      (handleEvent m ev).1.otherAliasKey = m.otherAliasKey ∧
      (handleEvent m ev).1.ownMemberDevice = m.ownMemberDevice := by
  cases ev <;>
    simp only [handleEvent, handleGroupMemberDeviceAdded, handleGroupDeviceChainKeyAdded,
      handleGroupJoined, handleGroupLeft, handleContactRequestDisabled,
      handleContactRequestEnabled, handleContactRequestReferenceReset,
      handleContactRequestOutgoingEnqueued, handleContactRequestOutgoingSent,
      handleContactRequestIncomingReceived, handleContactRequestIncomingDiscarded,
      handleContactRequestIncomingAccepted, handleContactBlocked, handleContactUnblocked,
      handleContactAliasKeyAdded, handleAccountServiceTokenAdded,
      handleAccountServiceTokenRemoved, handleMultiMemberInitialMember,
      handleMultiMemberGrantAdminRole, handleGroupMetadataPayloadSent,
      handleAccountVerifiedCredentialRegistered, registerContactFromGroupPK] <;>
    (repeat' split) <;> simp

theorem aliasFields_stepIdx (s : MetadataStoreIndex) (e : Entry) :
    (stepIdx s e).ownAliasKeySent = s.ownAliasKeySent ∧
      (stepIdx s e).otherAliasKey = s.otherAliasKey ∧
      (stepIdx s e).ownMemberDevice = s.ownMemberDevice := by
  unfold stepIdx
  split
  · exact ⟨rfl, rfl, rfl⟩
  · rcases e.decoded with _ | ev
    · exact ⟨rfl, rfl, rfl⟩
    · exact aliasFields_handleEvent s ev

theorem aliasFields_foldl (L : List Entry) (s : MetadataStoreIndex) :
    (L.foldl stepIdx s).ownAliasKeySent = s.ownAliasKeySent ∧
      (L.foldl stepIdx s).otherAliasKey = s.otherAliasKey ∧
      (L.foldl stepIdx s).ownMemberDevice = s.ownMemberDevice := by
  induction L generalizing s with
  | nil => exact ⟨rfl, rfl, rfl⟩
  | cons e L ih =>
    rw [List.foldl_cons]
    refine ⟨?_, ?_, ?_⟩
    · rw [(ih (stepIdx s e)).1, (aliasFields_stepIdx s e).1]
    · rw [(ih (stepIdx s e)).2.1, (aliasFields_stepIdx s e).2.1]
    · rw [(ih (stepIdx s e)).2.2, (aliasFields_stepIdx s e).2.2]

/-- A staged alias event whose sender device resolves to the own member. -/
def isOwnAlias (m : MetadataStoreIndex) (p : Bytes × Bytes) : Bool :=
  match m.unsafeGetMemberByDevice p.1 with
  | .ok b => b = m.ownMemberDevice.member
  | .error _ => false

/-- A staged alias event whose sender device resolves to a foreign member. -/
def isForeignAlias (m : MetadataStoreIndex) (p : Bytes × Bytes) : Bool :=
  match m.unsafeGetMemberByDevice p.1 with
  | .ok b => ¬b = m.ownMemberDevice.member
  | .error _ => false

/-- Follows the spec's words: the foreign alias key retained is the one of
the last processed staged event from a foreign member (the initial value
when there is none). -/
def specOtherAlias (m : MetadataStoreIndex) (q : List (Bytes × Bytes))
    (init : Option Bytes) : Option Bytes :=
  q.foldl (fun acc p => if isForeignAlias m p then some p.2 else acc) init

theorem aliasLoop_spec (q : List (Bytes × Bytes)) (m m' : MetadataStoreIndex)
    (h : aliasLoop m q = (m', none)) :
    m'.ownAliasKeySent = (m.ownAliasKeySent || q.any (isOwnAlias m)) ∧
      m'.otherAliasKey = specOtherAlias m q m.otherAliasKey ∧
      m'.eventsContactAddAliasKey = [] ∧
      m'.devices = m.devices ∧
      m'.ownMemberDevice = m.ownMemberDevice := by
  induction q generalizing m with
  | nil =>
    have hm : m' = { m with eventsContactAddAliasKey := [] } :=
      (congrArg Prod.fst h).symm
    rw [hm]
    exact ⟨by simp, rfl, rfl, rfl, rfl⟩
  | cons evt rest ih =>
    rcases hres : unsafeGetMemberByDevice m evt.1 with er | b
    · rw [aliasLoop_cons_error m evt rest er hres] at h
      exact absurd (congrArg Prod.snd h) (by simp)
    · by_cases hown : b = m.ownMemberDevice.member
      · rw [aliasLoop_cons_own m evt rest b hres hown] at h
        have hih := ih { m with ownAliasKeySent := true } h
        have hone : isOwnAlias m evt = true := by
          simp [isOwnAlias, hres, hown]
        have h1 : m'.ownAliasKeySent = (true || rest.any (isOwnAlias m)) := hih.1
        have h2 : m'.otherAliasKey = specOtherAlias m rest m.otherAliasKey := hih.2.1
        refine ⟨?_, ?_, hih.2.2.1, hih.2.2.2.1, hih.2.2.2.2⟩
        · rw [h1, List.any_cons, hone]
          simp
        · rw [h2]
          show _ = specOtherAlias m rest (if isForeignAlias m evt then some evt.2
            else m.otherAliasKey)
          have hfor : isForeignAlias m evt = false := by
            simp [isForeignAlias, hres, hown]
          rw [hfor]
          simp
      · by_cases hlen : evt.2.length ≠ keySize
        · rw [aliasLoop_cons_foreign_bad m evt rest b hres hown hlen] at h
          exact absurd (congrArg Prod.snd h) (by simp)
        · rw [aliasLoop_cons_foreign m evt rest b hres hown hlen] at h
          have hih := ih { m with otherAliasKey := some evt.2 } h
          have hone : isOwnAlias m evt = false := by
            simp [isOwnAlias, hres, hown]
          have h1 : m'.ownAliasKeySent = (m.ownAliasKeySent || rest.any (isOwnAlias m)) := hih.1
          have h2 : m'.otherAliasKey = specOtherAlias m rest (some evt.2) := hih.2.1
          refine ⟨?_, ?_, hih.2.2.1, hih.2.2.2.1, hih.2.2.2.2⟩
          · rw [h1, List.any_cons, hone]
            simp
          · rw [h2]
            show _ = specOtherAlias m rest (if isForeignAlias m evt then some evt.2
              else m.otherAliasKey)
            have hfor : isForeignAlias m evt = true := by
              simp [isForeignAlias, hres, hown]
            rw [hfor]
            simp

theorem isOwnAlias_congr (m1 m2 : MetadataStoreIndex) (hd : m1.devices = m2.devices)
    (ho : m1.ownMemberDevice = m2.ownMemberDevice) : isOwnAlias m1 = isOwnAlias m2 := by
  funext p
  unfold isOwnAlias unsafeGetMemberByDevice
  rw [hd, ho]

theorem isForeignAlias_congr (m1 m2 : MetadataStoreIndex) (hd : m1.devices = m2.devices)
    (ho : m1.ownMemberDevice = m2.ownMemberDevice) : isForeignAlias m1 = isForeignAlias m2 := by
  funext p
  unfold isForeignAlias unsafeGetMemberByDevice
  rw [hd, ho]

theorem specOtherAlias_congr (m1 m2 : MetadataStoreIndex) (hd : m1.devices = m2.devices)
    (ho : m1.ownMemberDevice = m2.ownMemberDevice) (q : List (Bytes × Bytes))
    (init : Option Bytes) : specOtherAlias m1 q init = specOtherAlias m2 q init := by
  unfold specOtherAlias
  rw [isForeignAlias_congr m1 m2 hd ho]

/-- C7: after a successful `updateIndex` from a state with a clean alias
slate (the staging queue, own-alias flag and foreign alias key at their
constructed values), `ownAliasKeySent` holds exactly when some staged
contact-alias-key event's sender device belongs to the own member,
`otherAliasKey` is the alias key of the last processed staged event from a
foreign member (resolved against the final device registry), and the staging
queue has been cleared. -/
theorem c7_alias_reconciliation (m : MetadataStoreIndex) (entries : List Entry)
    (m' : MetadataStoreIndex)
    (hnd : (entries.map Entry.hash).Nodup)
    (hq : m.eventsContactAddAliasKey = [])
    (hown0 : m.ownAliasKeySent = false)
    (hother0 : m.otherAliasKey = none)
    (hsucc : updateIndex m entries = (m', none)) :
    m'.ownAliasKeySent = (stagedAliases entries).any (isOwnAlias m') ∧
      m'.otherAliasKey = specOtherAlias m' (stagedAliases entries) none ∧
      m'.eventsContactAddAliasKey = [] := by
  have hnd' : (entries.reverse.map Entry.hash).Nodup := by
    rw [List.map_reverse]
    exact List.nodup_reverse.mpr hnd
  have hfresh : ∀ e ∈ entries.reverse, e.hash ∉ (resetState m).handledEvents := by
    intro e _
    rw [resetState_handled]
    exact List.not_mem_nil _
  have hqueue : (entries.reverse.foldl stepIdx (resetState m)).eventsContactAddAliasKey
      = stagedAliases entries := by
    rw [queue_foldl entries.reverse (resetState m) hnd' hfresh]
    show m.eventsContactAddAliasKey ++ _ = _
    rw [hq]
    rfl
  have hpost : aliasLoop (entries.reverse.foldl stepIdx (resetState m))
      (entries.reverse.foldl stepIdx (resetState m)).eventsContactAddAliasKey = (m', none) := by
    revert hsucc
    simp only [updateIndex, postHandlerSentAliases]
    rcases hal : aliasLoop (entries.reverse.foldl stepIdx (resetState m))
      (entries.reverse.foldl stepIdx (resetState m)).eventsContactAddAliasKey with ⟨m2, e⟩
    cases e with
    | none => intro hs; exact congrArg (fun x => (x.1, (none : Option Err))) hs
    | some er => intro hs; exact absurd (congrArg Prod.snd hs) (by simp)
  rw [hqueue] at hpost
  have hspec := aliasLoop_spec _ _ _ hpost
  have hfields := aliasFields_foldl entries.reverse (resetState m)
  have hfold_own : (entries.reverse.foldl stepIdx (resetState m)).ownAliasKeySent = false := by
    rw [hfields.1]
    exact hown0
  have hfold_other : (entries.reverse.foldl stepIdx (resetState m)).otherAliasKey = none := by
    rw [hfields.2.1]
    exact hother0
  have hdev : m'.devices = (entries.reverse.foldl stepIdx (resetState m)).devices :=
    hspec.2.2.2.1
  have hom : m'.ownMemberDevice = (entries.reverse.foldl stepIdx (resetState m)).ownMemberDevice :=
    hspec.2.2.2.2
  refine ⟨?_, ?_, hspec.2.2.1⟩
  · rw [hspec.1, hfold_own, isOwnAlias_congr m' _ hdev hom]
    simp
  · rw [hspec.2.1, hfold_other, specOtherAlias_congr m' _ hdev hom]

/-- Scenario S5 of the spec (oldest first): register the own device, stage an
own alias key, register a foreign device, stage a foreign alias key. -/
def entriesS5 : List Entry :=
  [ ⟨1, some (.groupMemberDeviceAdded keyA keyDA)⟩,
    ⟨2, some (.contactAliasKeyAdded keyDA keyKOwn)⟩,
    ⟨3, some (.groupMemberDeviceAdded keyB keyDB)⟩,
    ⟨4, some (.contactAliasKeyAdded keyDB keyKOther)⟩ ]

/-- Witness for C7 on scenario S5. -/
theorem c7_alias_reconciliation_witness :
    (updateIndex accIdx entriesS5).1.ownAliasKeySent
        = (stagedAliases entriesS5).any (isOwnAlias (updateIndex accIdx entriesS5).1) ∧
      (updateIndex accIdx entriesS5).1.otherAliasKey
        = specOtherAlias (updateIndex accIdx entriesS5).1 (stagedAliases entriesS5) none ∧
      (updateIndex accIdx entriesS5).1.eventsContactAddAliasKey = [] :=
  c7_alias_reconciliation accIdx entriesS5 (updateIndex accIdx entriesS5).1
    (by decide) rfl rfl rfl
    (Prod.ext_iff.mpr ⟨rfl, by decide⟩)

end MetadataStoreIndex

/-! ## C3: ownership of query results (heap model)

The pure embedding above cannot tell a returned copy from the stored record
itself, so the copy discipline of the query surface is studied on a heap
model of the contacts store with explicit pointers at both levels the Go
code allocates: every `*AccountContact`/`*ShareableContact` record the code
builds is a cell of `heap` (the address is the cell index) whose byte-slice
fields `PK`, `PublicRendezvousSeed` and `Metadata` are pointers into
`byteHeap` (a cell per `[]byte` backing array; `none` models a nil slice),
and the `contacts` map stores record addresses, exactly as the Go map stores
pointers. `listContacts` copies the structs but assigns the byte-slice
fields directly, so its copies keep the same `byteHeap` addresses as the
records they copy. -/

/-- A contact record as allocated by the Go code: the struct holds pointers
to its byte arrays (the `[]byte` slice headers of PK, rendezvous seed and
metadata). -/
structure HeapContact where
  state : ContactState
  pk : Nat
  publicRendezvousSeed : Option Nat
  metadata : Option Nat
deriving DecidableEq

/-- The contacts store with explicit record and byte-array pointers. -/
structure ContactHeapState where
  heap : List HeapContact
  byteHeap : List Bytes
  contacts : List (Bytes × Nat)

namespace ContactHeapState

/-- Dereference a record pointer. -/
def heapGet (h : List HeapContact) (a : Nat) : Option HeapContact := h[a]?

/-- Overwrite the record behind a pointer (mutate its struct fields). -/
def heapSet (h : List HeapContact) (a : Nat) (c : HeapContact) : List HeapContact :=
  h.set a c

/-- Mutate the contents of a byte array in place (`b[i] = x` on a slice). -/
def byteSet (h : List Bytes) (a : Nat) (b : Bytes) : List Bytes := h.set a b

/-- Dereference a byte-array pointer. -/
def derefByte (bh : List Bytes) (a : Nat) : Bytes := (bh[a]?).getD []

/-- `handleContactBlocked` in the heap model: `&AccountContact{state,
&ShareableContact{PK: evt.ContactPK}}` allocates a fresh record cell whose
PK field points at the event's byte array (written to the byte heap); the
contacts map stores the record pointer. -/
def hHandleContactBlocked (s : ContactHeapState) (contactPK : Bytes) : ContactHeapState :=
  if (mapLookup s.contacts contactPK).isSome then s
  else { heap := s.heap ++ [⟨.blocked, s.byteHeap.length, none, none⟩],
         byteHeap := s.byteHeap ++ [contactPK],
         contacts := mapInsert s.contacts contactPK s.heap.length }

/-- `getContact` in the heap model: `return contact, nil` hands the caller
the stored pointer itself, no copy. -/
def hGetContact (s : ContactHeapState) (pk : Bytes) : Option Nat :=
  mapLookup s.contacts pk

/-- `listContacts` in the heap model: one freshly allocated record struct
per entry — its fields, including the byte-slice pointers `PK`,
`PublicRendezvousSeed` and `Metadata`, are assigned from the source record,
so the copy shares the backing byte arrays — and the fresh record pointers
are returned while the heap grows by the copies. -/
def hListContacts (s : ContactHeapState) : List (Bytes × Nat) × List HeapContact :=
  (s.contacts.enum.map fun p => (p.2.1, s.heap.length + p.1),
   s.heap ++ s.contacts.map fun p =>
     (heapGet s.heap p.2).getD ⟨.toRequest, 0, none, none⟩)

/-- What the index itself reads for a contact key: the stored record with
its byte arrays dereferenced. -/
def viewContactAt (heap : List HeapContact) (bh : List Bytes)
    (contacts : List (Bytes × Nat)) (pk : Bytes) :
    Option (ContactState × Bytes × Option Bytes × Option Bytes) :=
  (mapLookup contacts pk).bind fun a =>
    (heap[a]?).map fun c =>
      (c.state, derefByte bh c.pk,
        c.publicRendezvousSeed.map (derefByte bh), c.metadata.map (derefByte bh))

/-- What the index itself reads for a contact key in a given state. -/
def viewContact (s : ContactHeapState) (pk : Bytes) :
    Option (ContactState × Bytes × Option Bytes × Option Bytes) :=
  viewContactAt s.heap s.byteHeap s.contacts pk

/-- Addresses stored by the index are live. -/
def ValidHeap (s : ContactHeapState) : Prop :=
  ∀ p ∈ s.contacts, p.2 < s.heap.length

/-- C3 counterexample: the claim says mutating a record returned by a query
never changes any internal map, slice or contact record. After one
ContactBlocked event for PK `[1]`, (a) `getContact` returns the very
pointer stored in the contacts map (address 0), and overwriting the record
behind it changes what the index reads; and (b) the record copy returned by
`listContacts` (the fresh cell at address 1) carries the same PK byte-array
pointer (byte address 0) as the stored record, so mutating the bytes of the
returned copy's PK slice changes what the index reads as well. -/
theorem c3_queries_alias_counterexample :
    (hGetContact (hHandleContactBlocked ⟨[], [], []⟩ [1]) [1] = some 0 ∧
      viewContact
        { hHandleContactBlocked ⟨[], [], []⟩ [1] with
            heap := heapSet (hHandleContactBlocked ⟨[], [], []⟩ [1]).heap 0
              ⟨.removed, 0, none, none⟩ } [1]
        ≠ viewContact (hHandleContactBlocked ⟨[], [], []⟩ [1]) [1]) ∧
    ((hListContacts (hHandleContactBlocked ⟨[], [], []⟩ [1])).2[1]?
        = some ⟨.blocked, 0, none, none⟩ ∧
      (hHandleContactBlocked ⟨[], [], []⟩ [1]).heap[0]?
        = some ⟨.blocked, 0, none, none⟩ ∧
      viewContact
        { hHandleContactBlocked ⟨[], [], []⟩ [1] with
            byteHeap := byteSet (hHandleContactBlocked ⟨[], [], []⟩ [1]).byteHeap 0 [9] } [1]
        ≠ viewContact (hHandleContactBlocked ⟨[], [], []⟩ [1]) [1]) := by decide

/-- C3 amended: not every query result is an owned copy. `listContacts`
returns fresh record structs — their addresses lie outside the stored heap
and coincide with no stored record pointer, and overwriting the struct
fields of a returned record never changes what the index reads — but each
returned record is a field-by-field copy of the stored one, byte-slice
pointers included, so it shares the PK/rendezvous-seed/metadata backing
arrays with the internal record (mutating those bytes, like mutating the
record returned by `getContact`, changes what the index reads — see the
counterexample). -/
theorem c3_listContacts_struct_copies (s : ContactHeapState) (hv : ValidHeap s) :
    (∀ q ∈ (hListContacts s).1, s.heap.length ≤ q.2) ∧
      (∀ q ∈ (hListContacts s).1, ∀ p ∈ s.contacts, q.2 ≠ p.2) ∧
      (∀ a c pk, s.heap.length ≤ a →
        viewContactAt (heapSet (hListContacts s).2 a c) s.byteHeap s.contacts pk
          = viewContact s pk) ∧
      (∀ i p, s.contacts[i]? = some p →
        (hListContacts s).2[s.heap.length + i]? = s.heap[p.2]?) := by
  have hfresh : ∀ q ∈ (hListContacts s).1, s.heap.length ≤ q.2 := by
    intro q hq
    obtain ⟨p, _, hpq⟩ := List.mem_map.mp hq
    rw [← hpq]
    exact Nat.le_add_right _ _
  refine ⟨hfresh, ?_, ?_, ?_⟩
  · intro q hq p hp
    have h1 := hfresh q hq
    have h2 := hv p hp
    omega
  · intro a c pk ha
    unfold viewContact viewContactAt
    rcases hl : mapLookup s.contacts pk with _ | addr
    · rfl
    · have haddr : addr < s.heap.length := hv _ (mapLookup_some_mem hl)
      have hcell : (heapSet (hListContacts s).2 a c)[addr]? = s.heap[addr]? := by
        unfold heapSet hListContacts
        rw [List.getElem?_set_ne (by omega)]
        show (s.heap ++ _)[addr]? = _
        rw [List.getElem?_append, if_pos haddr]
      show ((heapSet (hListContacts s).2 a c)[addr]?).map _ = (s.heap[addr]?).map _
      rw [hcell]
  · intro i p hip
    have hp2 : p.2 < s.heap.length := hv p (List.mem_iff_getElem?.mpr ⟨i, hip⟩)
    unfold hListContacts
    show (s.heap ++ s.contacts.map _)[s.heap.length + i]? = _
    rw [List.getElem?_append, if_neg (by omega)]
    have hsub : s.heap.length + i - s.heap.length = i := by omega
    rw [hsub, List.getElem?_map, hip]
    simp [heapGet, List.getElem?_eq_getElem hp2]

end ContactHeapState

/-- Witness for the amended C3 on a one-contact state reached by a
ContactBlocked event. -/
theorem c3_listContacts_struct_copies_witness :
    (∀ q ∈ (ContactHeapState.hListContacts
        (ContactHeapState.hHandleContactBlocked ⟨[], [], []⟩ [1])).1,
      (ContactHeapState.hHandleContactBlocked ⟨[], [], []⟩ [1]).heap.length ≤ q.2) ∧
      (∀ q ∈ (ContactHeapState.hListContacts
          (ContactHeapState.hHandleContactBlocked ⟨[], [], []⟩ [1])).1,
        ∀ p ∈ (ContactHeapState.hHandleContactBlocked ⟨[], [], []⟩ [1]).contacts, q.2 ≠ p.2) ∧
      (∀ a c pk, (ContactHeapState.hHandleContactBlocked ⟨[], [], []⟩ [1]).heap.length ≤ a →
        ContactHeapState.viewContactAt
          (ContactHeapState.heapSet
            (ContactHeapState.hListContacts
              (ContactHeapState.hHandleContactBlocked ⟨[], [], []⟩ [1])).2 a c)
          (ContactHeapState.hHandleContactBlocked ⟨[], [], []⟩ [1]).byteHeap
          (ContactHeapState.hHandleContactBlocked ⟨[], [], []⟩ [1]).contacts pk
          = ContactHeapState.viewContact
              (ContactHeapState.hHandleContactBlocked ⟨[], [], []⟩ [1]) pk) ∧
      (∀ i p, (ContactHeapState.hHandleContactBlocked ⟨[], [], []⟩ [1]).contacts[i]? = some p →
        (ContactHeapState.hListContacts
          (ContactHeapState.hHandleContactBlocked ⟨[], [], []⟩ [1])).2[
            (ContactHeapState.hHandleContactBlocked ⟨[], [], []⟩ [1]).heap.length + i]?
          = (ContactHeapState.hHandleContactBlocked ⟨[], [], []⟩ [1]).heap[p.2]?) :=
  ContactHeapState.c3_listContacts_struct_copies
    (ContactHeapState.hHandleContactBlocked ⟨[], [], []⟩ [1])
    (by unfold ContactHeapState.ValidHeap ContactHeapState.hHandleContactBlocked; decide)

namespace MetadataStoreIndex

/-- A log with a single initial-member announcement (valid 32-byte key). -/
def entriesInitMember : List Entry :=
  [⟨1, some (.multiMemberGroupInitialMemberAnnounced keyA)⟩]

/-- C9 fails on the code: the `admins` map is keyed by the `crypto.PubKey`
interface value returned by `UnmarshalEd25519PublicKey`, a freshly allocated
pointer, so the presence check of `handleMultiMemberInitialMember` can never
see a previous insertion. A second `UpdateIndex` over the same
single-initial-member log re-appends the admin: `listAdmins` returns the
member once after one replay and twice after two, contradicting "two replays
yield the same observable state through every query". -/
theorem c9_admins_grow_on_replay :
    listAdmins (updateIndex mmIdx entriesInitMember).1 = [keyA] ∧
      listAdmins (updateIndex (updateIndex mmIdx entriesInitMember).1 entriesInitMember).1
        = [keyA, keyA] ∧
      listAdmins (updateIndex (updateIndex mmIdx entriesInitMember).1 entriesInitMember).1
        ≠ listAdmins (updateIndex mmIdx entriesInitMember).1 := by decide

end MetadataStoreIndex

end Weshnet
